import Mathlib

/-!
Shallow embedding of the fis-migration-tool core: the hash-space partitioner
(package segment), the segment exporter and its cursor-paginated query
(internal/exporter), the streaming multipart upload sink (package s3), and the
batch scheduler (package migration).  Each definition is translated from the
corresponding Go source; SQL queries are modelled by their relational semantics
(filter, order, limit) over an in-memory table, and remote S3 calls are
modelled by explicit state with success/failure oracles.
-/

namespace FisMigration

/-! ## Data model and operations (definitions) -/

/-- A hash range segment: `segment.Segment` with fields `Index`, `StartHex`, `EndHex`. -/
structure Segment where
  Index : Nat
  StartHex : String
  EndHex : String
deriving Repr, DecidableEq

/-- The lowercase hex digits, as used by Go's `fmt.Sprintf("%02x", _)`. -/
def hexChar (n : Nat) : Char :=
  "0123456789abcdef".data.getD n 'x'

/-- `intToHex` converts an integer (0-256) to a 2-digit lowercase hex string;
for values >= 256 it returns "100" (source: segment.go `intToHex`). -/
def intToHex (val : Nat) : String :=
  if val ≥ 256 then "100"
  else String.mk [hexChar (val / 16), hexChar (val % 16)]

/-- The body of the partitioning loop of `SegmentHashSpace`: at loop index `i`
with accumulated boundary `start`, emit `count` further segments.  `size` and
`rem` are the precomputed `256 / segments` and `256 % segments`. -/
def buildSegs (size rem : Nat) (i start : Nat) : Nat → List Segment
  | 0 => []
  | count + 1 =>
    let sz := if i < rem then size + 1 else size
    let e := start + sz
    let e := if e > 256 then 256 else e
    { Index := i, StartHex := intToHex start, EndHex := intToHex e }
      :: buildSegs size rem (i + 1) e count

/-- The final fix-up of `SegmentHashSpace`: if the last segment's `EndHex` is
`"ff"`, rewrite it to the sentinel `"100"`. -/
def fixLastSegment : List Segment → List Segment
  | [] => []
  | [s] => [if s.EndHex = "ff" then { s with EndHex := "100" } else s]
  | s :: t :: rest => s :: fixLastSegment (t :: rest)

/-- `SegmentHashSpace` partitions the hash space `[00, FF]` into N segments
(source: segment.go `SegmentHashSpace`).  The argument is an `Int` because the
Go parameter is a signed `int`. -/
def SegmentHashSpace (segments : Int) : Except String (List Segment) :=
  if segments ≤ 0 then
    .error s!"segments must be positive, got {segments}"
  else if segments > 256 then
    .error s!"segments cannot exceed 256, got {segments}"
  else
    let n := segments.toNat
    .ok (fixLastSegment (buildSegs (256 / n) (256 % n) 0 0 n))

/-- The value of a single hex digit character, upper or lower case (as accepted
by Go's `big.Int.SetString` with base 16). -/
def hexDigitVal (c : Char) : Option Nat :=
  if '0' ≤ c ∧ c ≤ '9' then some (c.toNat - '0'.toNat)
  else if 'a' ≤ c ∧ c ≤ 'f' then some (c.toNat - 'a'.toNat + 10)
  else if 'A' ≤ c ∧ c ≤ 'F' then some (c.toNat - 'A'.toNat + 10)
  else none

/-- Left-to-right accumulation of hex digits. -/
def parseHexChars : List Char → Nat → Option Nat
  | [], acc => some acc
  | c :: cs, acc =>
    match hexDigitVal c with
    | some d => parseHexChars cs (acc * 16 + d)
    | none => none

/-- `HexToInt` converts a hex string to an integer via `big.Int.SetString`
with base 16 (source: segment.go `HexToInt`), restricted to the unsigned
inputs this program feeds it. -/
def HexToInt (hexStr : String) : Except String Int :=
  match parseHexChars hexStr.data 0 with
  | some v => if hexStr.data.isEmpty then .error s!"invalid hex string: {hexStr}" else .ok v
  | none => .error s!"invalid hex string: {hexStr}"

/-- `SegmentToHexRange` converts a segment index to hex boundaries by
recomputing the partition and indexing into it (source: segment.go
`SegmentToHexRange`). -/
def SegmentToHexRange (segmentIndex totalSegments : Int) : Except String (String × String) :=
  if segmentIndex < 0 ∨ segmentIndex ≥ totalSegments then
    .error s!"segment index {segmentIndex} out of range"
  else
    match SegmentHashSpace totalSegments with
    | .error e => .error e
    | .ok segs =>
      match segs[segmentIndex.toNat]? with
      | some s => .ok (s.StartHex, s.EndHex)
      | none => .error s!"segment index {segmentIndex} out of range"

/-- Lexicographic comparison of character lists.  This models Go's built-in
string `<`: Go compares byte-wise, which on UTF-8 encoded text coincides with
lexicographic comparison of the code-point sequences. -/
def ltCharsB : List Char → List Char → Bool
  | [], [] => false
  | [], _ :: _ => true
  | _ :: _, [] => false
  | a :: as, b :: bs => if a < b then true else if b < a then false else ltCharsB as bs

/-- Go's string `<`. -/
def goLtB (s t : String) : Bool := ltCharsB s.data t.data

/-- Go's string `<=` (the negation of the reversed strict comparison, as in any
total order). -/
def goLeB (s t : String) : Bool := !(goLtB t s)

/-- `HashInSegment` checks whether a hash falls in a segment by comparing its
first two characters against the segment boundaries with Go string
(lexicographic byte) comparison (source: segment.go `HashInSegment`). -/
def HashInSegment (hash : String) (seg : Segment) : Bool :=
  if hash.data.length < 2 then false
  else
    let hashPfx := String.mk (hash.data.take 2)
    goLeB seg.StartHex hashPfx && goLtB hashPfx seg.EndHex

/-- Closed form of the boundary in front of segment `i` when the 256-value
space is divided into `n` parts: `i` parts of size `256/n` plus one extra unit
for each of the first `min i (256 % n)` parts. -/
def segBound (n i : Nat) : Nat := i * (256 / n) + min i (256 % n)

/-- The segment the partitioner builds at index `i`. -/
def segOf (n i : Nat) : Segment :=
  { Index := i, StartHex := intToHex (segBound n i), EndHex := intToHex (segBound n (i + 1)) }

/-- The whole partition in closed form. -/
def segList (n : Nat) : List Segment := (List.range' 0 n).map (segOf n)

/-- Membership of a row key in a hex range, computed numerically from the
boundary strings: the spec's "membership computed from the boundaries returned
by segmentForIndex", using the package's own `HexToInt` conversion of the
two-character key prefix and the two boundaries. -/
def memberViaBoundaries (hash : String) (startHex endHex : String) : Bool :=
  if hash.data.length < 2 then false
  else
    match HexToInt (String.mk (hash.data.take 2)), HexToInt startHex, HexToInt endHex with
    | .ok p, .ok s, .ok e => decide (s ≤ p) && decide (p < e)
    | _, _, _ => false

/-- The i-th segment of `SegmentHashSpace n`, when defined. -/
def partitionSegAt (n : Int) (i : Nat) : Option Segment :=
  match SegmentHashSpace n with
  | .ok segs => segs[i]?
  | .error _ => none

/-- The configuration fields that the exporter core reads
(source: internal/config, as consumed by exporter.go). -/
structure Config where
  tenantID : Nat
  tableName : String
  s3Pfx : String
  batchSize : Nat

/-- A row of the `fis_aggr` table (source: exporter `Row`).  `lastModified` is
modelled as its already-formatted MySQL timestamp text, since the exporter
only ever passes it through `formatTimestamp`. -/
structure Row where
  tenantID : Nat
  hash : String
  aggr : String
  lastModified : Option String
  version : Option Int
deriving Repr, DecidableEq

/-- A generated CSV file descriptor (source: exporter `CSVFile`). -/
structure CSVFile where
  filePath : String
  s3Key : String
  seg : Segment
  rowCount : Nat
deriving Repr, DecidableEq

/-- `formatTimestamp` (source: exporter.go): empty string for NULL, the
MySQL-format text otherwise. -/
def formatTimestamp (t : Option String) : String := t.getD ""

/-- `formatInt` (source: exporter.go): empty string for NULL. -/
def formatInt : Option Int → String
  | none => ""
  | some v => toString v

/-- Whether Go's `encoding/csv` writer quotes a field (comma delimiter):
fields containing a comma, quote or line break, the literal `\.`, or starting
with blank space. -/
def fieldNeedsQuotes (f : String) : Bool :=
  if f.data.isEmpty then false
  else if f.data = ['\\', '.'] then true
  else
    f.data.any (fun c => c = ',' || c = '"' || c = '\n' || c = '\r') ||
      (match f.data with
       | c :: _ => c = ' ' || c = '\t' || c = '\n' || c = '\r'
       | [] => false)

/-- A single field as Go's `encoding/csv` writer emits it. -/
def escapeField (f : String) : String :=
  if fieldNeedsQuotes f then "\"" ++ f.replace "\"" "\"\"" ++ "\"" else f

/-- One CSV record line: comma-joined escaped fields plus a newline. -/
def writeRecord (fields : List String) : String :=
  String.intercalate "," (fields.map escapeField) ++ "\n"

/-- The header record written by `rowsToCSVBytes` (source: exporter.go). -/
def csvHeader : List String := ["tenantid", "hash", "aggr", "last_modified", "version"]

/-- The record for one row (source: exporter.go `rowsToCSVBytes` loop body). -/
def rowRecord (r : Row) : List String :=
  [toString r.tenantID, r.hash, r.aggr, formatTimestamp r.lastModified, formatInt r.version]

/-- Concatenation of a list of byte strings, in order (the contents of an
in-memory buffer written to left to right). -/
def concatAll : List String → String
  | [] => ""
  | s :: rest => s ++ concatAll rest

/-- `rowsToCSVBytes` converts rows to CSV bytes in memory, optionally preceded
by the header record (source: exporter.go `rowsToCSVBytes`; the in-memory
`csv.Writer` cannot fail, so the model is total). -/
def rowsToCSVBytes (rows : List Row) (includeHeader : Bool) : String :=
  concatAll ((if includeHeader then [writeRecord csvHeader] else [])
    ++ rows.map (fun r => writeRecord (rowRecord r)))

/-- The deterministic S3 object key built at the top of `ExportSegment`
(source: exporter.go lines 113-117): `fmt.Sprintf` is plain concatenation. -/
def s3KeyFor (cfg : Config) (seg : Segment) : String :=
  let filename := "tenant-" ++ toString cfg.tenantID ++ "." ++ cfg.tableName ++ ".hash-"
    ++ seg.StartHex ++ "-" ++ seg.EndHex ++ ".csv"
  cfg.s3Pfx ++ "/tenant-" ++ toString cfg.tenantID ++ "/" ++ cfg.tableName ++ "/" ++ filename

/-- The `WHERE` clause on the hash column built by `querySegmentInTx`
(source: exporter.go lines 271-318), as a predicate on one row key.  The four
branches mirror the source: with/without cursor crossed with
sentinel/regular segment. -/
def hashCond (seg : Segment) (lastHash : String) (h : String) : Bool :=
  let endHex := if seg.EndHex = "100" then "ff" else seg.EndHex
  let useLessThan := !(seg.EndHex = "100")
  if lastHash ≠ "" then
    if !useLessThan then
      goLtB lastHash h && goLeB seg.StartHex h && goLeB h "ff"
    else
      goLtB lastHash h && goLeB seg.StartHex h && goLtB h endHex
  else
    if !useLessThan then
      goLeB seg.StartHex h && goLeB h "ff"
    else
      goLeB seg.StartHex h && goLtB h endHex

/-- Row ordering used by the query's `ORDER BY hash`. -/
def rowLe (a b : Row) : Prop := goLeB a.hash b.hash = true

instance : DecidableRel rowLe := fun a b => by
  unfold rowLe
  infer_instance

/-- `querySegmentInTx` modelled relationally: the SQL statement
`SELECT ... WHERE tenantid = ? AND <hashCond> ORDER BY hash LIMIT ?` over an
in-memory table `db` (source: exporter.go `querySegmentInTx`).  The snapshot
transaction is implicit: `db` is the fixed snapshot the transaction sees. -/
def querySegmentInTx (cfg : Config) (db : List Row) (seg : Segment) (lastHash : String) :
    List Row :=
  (List.insertionSort rowLe
      (db.filter (fun r => decide (r.tenantID = cfg.tenantID) && hashCond seg lastHash r.hash))).take
    cfg.batchSize

/-- State of `ExportSegment`'s pagination loop (the local variables of the
source loop, plus the ghost `collected` trace of all rows the pagination
returned). -/
structure ExportState where
  lastHash : String
  batchNum : Nat
  totalRows : Nat
  headerWritten : Bool
  parts : List String
  collected : List Row
deriving Repr

/-- The pagination loop of `ExportSegment` (source: exporter.go lines
149-202).  `q` is the query oracle (batch number and cursor to rows or error;
the real instantiation is `querySegmentInTx` on a snapshot, errors model
query/scan failures); `uErr` injects `UploadPart` failures by part index.  The
result pairs the final state with an optional error; the `Bool` beside the
error message records whether the sink was aborted while producing the error
(the real `MultipartUploadStream.UploadPart` aborts internally after
exhausting retries; a failed query aborts nothing).  `fuel` is the number of
loop iterations still allowed by `maxBatches`. -/
def exportLoop (q : Nat → String → Except String (List Row)) (uErr : Nat → Option String)
    (batchSize : Nat) : Nat → ExportState → ExportState × Option (String × Bool)
  | 0, st => (st, none)
  | fuel + 1, st =>
    match q st.batchNum (if st.batchNum = 0 then "" else st.lastHash) with
    | .error e => (st, some (s!"failed to query segment: {e}", false))
    | .ok rows =>
      match rows with
      | [] => (st, none)
      | r0 :: rest =>
        let lastHash := ((r0 :: rest).getLast (by simp)).hash
        let csvBytes := rowsToCSVBytes rows (!st.headerWritten)
        match uErr st.parts.length with
        | some e => (st, some (s!"failed to upload batch as multipart part: {e}", true))
        | none =>
          let st' : ExportState :=
            { lastHash := lastHash
              batchNum := st.batchNum
              totalRows := st.totalRows + rows.length
              headerWritten := true
              parts := st.parts ++ [csvBytes]
              collected := st.collected ++ rows }
          if rows.length < batchSize then (st', none)
          else exportLoop q uErr batchSize fuel { st' with batchNum := st.batchNum + 1 }

/-- The observable outcome of one `ExportSegment` call: its return value plus
the state of the sink and of the transaction at exit. -/
structure ExportOutcome where
  result : Except String (Option CSVFile)
  sinkCreated : Bool
  parts : List String
  sinkAborted : Bool
  sinkCompleted : Bool
  txBegun : Bool
  txRolledBack : Bool
  collected : List Row

/-- `ExportSegment` (source: exporter.go lines 112-233).  `createErr` and
`beginErr` inject failures of `NewMultipartUploadStream` and `BeginTx`.

Control flow mirrors the Go function, including its deferred calls.  The
deferred `stream.Abort()` closure tests the function-scope `err` variable;
that variable is last assigned by `BeginTx` (`tx, err := ...` reuses it),
while every later failure is returned through differently-scoped variables
(`queryErr`, the loop-local `csvBytes, err :=`, and `if err := ... ; err != nil`
forms), so at any later return the captured `err` is still nil and the
deferred abort does not fire.  The deferred `tx.Rollback()` always runs. -/
def ExportSegment (cfg : Config) (seg : Segment) (createErr : Option String)
    (beginErr : Option String) (q : Nat → String → Except String (List Row))
    (uErr : Nat → Option String) : ExportOutcome :=
  match createErr with
  | some e =>
    { result := .error s!"failed to initiate multipart upload: {e}"
      sinkCreated := false, parts := [], sinkAborted := false, sinkCompleted := false
      txBegun := false, txRolledBack := false, collected := [] }
  | none =>
    match beginErr with
    | some e =>
      -- the function-scope err is non-nil here, so the deferred abort fires
      { result := .error s!"failed to start transaction: {e}"
        sinkCreated := true, parts := [], sinkAborted := true, sinkCompleted := false
        txBegun := false, txRolledBack := false, collected := [] }
    | none =>
      let run := exportLoop q uErr cfg.batchSize 10000
        { lastHash := "", batchNum := 0, totalRows := 0, headerWritten := false
          parts := [], collected := [] }
      match run with
      | (st, some (e, ab)) =>
        -- the function-scope err is still nil: only the sink's own internal
        -- abort (ab) can have happened; the deferred abort does not fire
        { result := .error e
          sinkCreated := true, parts := st.parts, sinkAborted := ab, sinkCompleted := false
          txBegun := true, txRolledBack := true, collected := st.collected }
      | (st, none) =>
        -- tx.Commit() (read-only) is modelled as succeeding
        if st.totalRows = 0 then
          -- explicit stream.Abort() on the no-data path
          { result := .ok none
            sinkCreated := true, parts := st.parts, sinkAborted := true, sinkCompleted := false
            txBegun := true, txRolledBack := true, collected := st.collected }
        else
          -- stream.Complete(): fails (and aborts) only if no parts were uploaded
          if st.parts.isEmpty then
            { result := .error "failed to complete multipart upload: no parts uploaded"
              sinkCreated := true, parts := st.parts, sinkAborted := true, sinkCompleted := false
              txBegun := true, txRolledBack := true, collected := st.collected }
          else
            { result := .ok (some { filePath := "", s3Key := s3KeyFor cfg seg, seg := seg
                                    rowCount := st.totalRows })
              sinkCreated := true, parts := st.parts, sinkAborted := false, sinkCompleted := true
              txBegun := true, txRolledBack := true, collected := st.collected }

/-- The query oracle over an in-memory snapshot. -/
def qDB (cfg : Config) (db : List Row) (seg : Segment) :
    Nat → String → Except String (List Row) :=
  fun _ cursor => .ok (querySegmentInTx cfg db seg cursor)

/-- `ExportSegment` against an in-memory snapshot `db`, with no injected
infrastructure failures: the query oracle is `querySegmentInTx` on the
snapshot. -/
def ExportSegmentDB (cfg : Config) (db : List Row) (seg : Segment) : ExportOutcome :=
  ExportSegment cfg seg none none (qDB cfg db seg) (fun _ => none)

/-- A good mid-export state: the uploaded parts are exactly the CSV rendering
of the collected rows with one header, the counters agree, the collected rows
are sorted and bounded by the cursor. -/
def GoodState (st : ExportState) : Prop :=
  st.headerWritten = true ∧
  concatAll st.parts = rowsToCSVBytes st.collected true ∧
  st.totalRows = st.collected.length ∧
  List.Pairwise rowLe st.collected ∧
  (∀ r ∈ st.collected, goLeB r.hash st.lastHash = true) ∧
  st.collected ≠ [] ∧ st.parts ≠ []

/-- The invariant holding on entry to each loop iteration: either the pristine
initial state, or a good state from a previous iteration. -/
def EntryInv (st : ExportState) : Prop :=
  (st.batchNum = 0 ∧ st.collected = [] ∧ st.parts = [] ∧ st.headerWritten = false ∧
    st.totalRows = 0) ∨ (1 ≤ st.batchNum ∧ GoodState st)

/-- The invariant at loop exit. -/
def ExitInv (st : ExportState) : Prop :=
  (st.collected = [] ∧ st.parts = [] ∧ st.totalRows = 0) ∨ GoodState st

/-- The initial loop state of `ExportSegment`. -/
def initExportState : ExportState :=
  { lastHash := "", batchNum := 0, totalRows := 0, headerWritten := false
    parts := [], collected := [] }

/-- Modelled from the spec: the remote-key compatibility format
`{prefix}/tenant-{tenantId}/{table}/{table}.hash-{startKey}-{endKey}.{ext}`
with `{ext}` = csv. -/
def specRemoteKey (cfg : Config) (seg : Segment) : String :=
  cfg.s3Pfx ++ "/tenant-" ++ toString cfg.tenantID ++ "/" ++ cfg.tableName ++ "/"
    ++ cfg.tableName ++ ".hash-" ++ seg.StartHex ++ "-" ++ seg.EndHex ++ ".csv"

/-- The key format the code actually produces: the filename stem is
`tenant-{tenantId}.{table}`, not `{table}`. -/
def actualRemoteKey (cfg : Config) (seg : Segment) : String :=
  cfg.s3Pfx ++ "/tenant-" ++ toString cfg.tenantID ++ "/" ++ cfg.tableName ++ "/"
    ++ ("tenant-" ++ toString cfg.tenantID ++ "." ++ cfg.tableName) ++ ".hash-"
    ++ seg.StartHex ++ "-" ++ seg.EndHex ++ ".csv"

/-- `s3.MultipartUploadStream` state: the accumulated completed parts (part
number paired with the uploaded bytes, standing in for the ETag) and the next
part number; `aborted` records whether `abortMultipartUpload` was invoked. -/
structure MultipartUploadStream where
  parts : List (Nat × String)
  partNumber : Nat
  aborted : Bool
deriving Repr, DecidableEq

/-- The state `NewMultipartUploadStream` initializes (source: s3.go):
`parts: [], partNumber: 1`. -/
def newMultipartUploadStream : MultipartUploadStream :=
  { parts := [], partNumber := 1, aborted := false }

/-- The retry loop of `UploadPart`: attempts numbered from `a` with `budget`
attempts remaining; `attemptOk` is the oracle for each attempt's outcome.
Returns whether some attempt succeeded, and the list of sleep multipliers
(the source sleeps `initialRetryDelay * attempt` after each failed attempt
except the last). -/
def runAttempts (attemptOk : Nat → Bool) : Nat → Nat → Bool × List Nat
  | _, 0 => (false, [])
  | a, budget + 1 =>
    if attemptOk a then (true, [])
    else if budget = 0 then (false, [])
    else
      let r := runAttempts attemptOk (a + 1) budget
      (r.1, a :: r.2)

/-- `MultipartUploadStream.UploadPart` (source: s3.go lines 357-403): no-op on
empty data; otherwise up to `maxS3Retries = 5` attempts with a sleep of
`initialRetryDelay * attempt` between consecutive attempts; on success one
part is appended carrying the current part number, which is then incremented;
on exhaustion the session is aborted and an error returned. -/
def MultipartUploadStream.UploadPart (attemptOk : Nat → Bool) (m : MultipartUploadStream)
    (data : String) : MultipartUploadStream × Option String × List Nat :=
  if data = "" then (m, none, [])
  else
    let r := runAttempts attemptOk 1 5
    if r.1 then
      ({ m with parts := m.parts ++ [(m.partNumber, data)], partNumber := m.partNumber + 1 },
        none, r.2)
    else
      ({ m with aborted := true }, some s!"failed to upload part {m.partNumber}", r.2)

/-- `MultipartUploadStream.Complete` (source: s3.go lines 406-433): with no
accumulated parts the upload is aborted and the "no parts uploaded" error
returned; otherwise `CompleteMultipartUpload` is invoked with the accumulated
part list (success modelled by `remoteOk`), returning the finalized object's
part list; a failed remote completion also aborts. -/
def MultipartUploadStream.Complete (remoteOk : Bool) (m : MultipartUploadStream) :
    MultipartUploadStream × Option String × Option (List (Nat × String)) :=
  if m.parts.isEmpty then
    ({ m with aborted := true }, some "no parts uploaded", none)
  else if remoteOk then
    (m, none, some m.parts)
  else
    ({ m with aborted := true }, some "failed to complete multipart upload", none)

/-- A whole session: a sequence of `UploadPart` calls, each with its payload
and its per-attempt outcome oracle. -/
def runSession (calls : List (String × (Nat → Bool))) (m : MultipartUploadStream) :
    MultipartUploadStream :=
  match calls with
  | [] => m
  | (data, f) :: rest => runSession rest (MultipartUploadStream.UploadPart f m data).1

/-- The numbering invariant: the accumulated parts carry the consecutive part
numbers 1, 2, ..., and the counter points one past them. -/
def partsNumbered (m : MultipartUploadStream) : Prop :=
  m.parts.map Prod.fst = List.range' 1 m.parts.length ∧ m.partNumber = m.parts.length + 1

/-- A call that contributes no part: empty payload, or all five attempts
fail. -/
def callNoOp (c : String × (Nat → Bool)) : Prop :=
  c.1 = "" ∨ (runAttempts c.2 1 5).1 = false

/-- `ProcessSegments` (source: part of package migration, lines 17-85).
`createExporterErr` and `createUploaderErr` inject failures of
`exporter.NewExporter` and `s3.NewUploader`; `perSegment` is the per-segment
outcome of `ProcessSegment` (its files, or its error).  The goroutine
fan-out over waves of `maxParallel` segments with a mutex-guarded shared
slice is sequentialized in submission order: the set of collected files is
the same, and a segment whose `ProcessSegment` fails is only logged — its
output is skipped and no error is recorded anywhere. -/
def ProcessSegments (createExporterErr createUploaderErr : Option String)
    (perSegment : Segment → Except String (List CSVFile)) (segments : List Segment) :
    Except String (List CSVFile) :=
  match createExporterErr with
  | some e => .error s!"failed to create exporter: {e}"
  | none =>
    match createUploaderErr with
    | some e => .error s!"failed to create S3 uploader: {e}"
    | none =>
      .ok (segments.foldl (fun acc s =>
        match perSegment s with
        | .ok files => acc ++ files
        | .error _ => acc) [])

/-! ## Properties (theorems) -/

theorem segBound_zero (n : Nat) : segBound n 0 = 0 := by
  simp [segBound]

theorem segBound_self (n : Nat) (hn : 1 ≤ n) : segBound n n = 256 := by
  have h : 256 % n < n := Nat.mod_lt _ hn
  have h2 : min n (256 % n) = 256 % n := Nat.min_eq_right (Nat.le_of_lt h)
  simp only [segBound, h2]
  exact Nat.div_add_mod 256 n

theorem segBound_succ (n i : Nat) :
    segBound n (i + 1) = segBound n i + (if i < 256 % n then 256 / n + 1 else 256 / n) := by
  simp only [segBound]
  rcases Nat.lt_or_ge i (256 % n) with h | h
  · have h1 : min i (256 % n) = i := Nat.min_eq_left (Nat.le_of_lt h)
    have h2 : min (i + 1) (256 % n) = i + 1 := Nat.min_eq_left h
    simp [h, h1, h2]
    ring
  · have h1 : min i (256 % n) = 256 % n := Nat.min_eq_right h
    have h2 : min (i + 1) (256 % n) = 256 % n := Nat.min_eq_right (Nat.le_succ_of_le h)
    simp [Nat.not_lt.mpr h, h1, h2]
    ring

theorem segBound_lt_succ (n i : Nat) (hn : 1 ≤ n) (hn' : n ≤ 256) :
    segBound n i < segBound n (i + 1) := by
  have hsz : 1 ≤ 256 / n := (Nat.one_le_div_iff hn).mpr hn'
  rw [segBound_succ]
  rcases Nat.lt_or_ge i (256 % n) with h | h
  · rw [if_pos h]; omega
  · rw [if_neg (Nat.not_lt.mpr h)]; omega

theorem segBound_mono (n : Nat) (hn : 1 ≤ n) (hn' : n ≤ 256) :
    ∀ {i j : Nat}, i ≤ j → segBound n i ≤ segBound n j := by
  intro i j hij
  induction hij with
  | refl => exact Nat.le_refl _
  | step _ ih => exact Nat.le_trans ih (Nat.le_of_lt (segBound_lt_succ n _ hn hn'))

theorem segBound_le_256 (n i : Nat) (hn : 1 ≤ n) (hn' : n ≤ 256) (hi : i ≤ n) :
    segBound n i ≤ 256 := by
  have := segBound_mono n hn hn' hi
  rw [segBound_self n hn] at this
  exact this

theorem segBound_lt_256 (n i : Nat) (hn : 1 ≤ n) (hn' : n ≤ 256) (hi : i < n) :
    segBound n i < 256 := by
  have h1 := segBound_lt_succ n i hn hn'
  have h2 := segBound_le_256 n (i + 1) hn hn' hi
  omega

/-- The loop body in closed form. -/
theorem buildSegs_eq (n : Nat) (hn : 1 ≤ n) (hn' : n ≤ 256) :
    ∀ (count i : Nat), i + count = n →
      buildSegs (256 / n) (256 % n) i (segBound n i) count = (List.range' i count).map (segOf n) := by
  intro count
  induction count with
  | zero => intro i _; rfl
  | succ k ih =>
    intro i hik
    have hstep : segBound n i + (if i < 256 % n then 256 / n + 1 else 256 / n) = segBound n (i + 1) :=
      (segBound_succ n i).symm
    have hle : segBound n (i + 1) ≤ 256 := segBound_le_256 n (i + 1) hn hn' (by omega)
    have hclamp : ¬ (segBound n (i + 1) > 256) := by omega
    simp only [buildSegs, hstep, if_neg hclamp]
    rw [ih (i + 1) (by omega)]
    rfl

theorem segList_length (n : Nat) : (segList n).length = n := by
  simp [segList]

theorem segList_get (n i : Nat) (hi : i < (segList n).length) :
    (segList n).get ⟨i, hi⟩ = segOf n i := by
  simp [segList]

theorem intToHex_256 : intToHex 256 = "100" := rfl

theorem intToHex_lt (v : Nat) (hv : v < 256) :
    intToHex v = String.mk [hexChar (v / 16), hexChar (v % 16)] := by
  rw [intToHex, if_neg (by omega)]

theorem segList_getLast_endHex (n : Nat) (hn : 1 ≤ n) :
    ∀ s ∈ (segList n).getLast?, s.EndHex ≠ "ff" := by
  intro s hs
  have hne : segList n ≠ [] := by
    intro h
    have := segList_length n
    rw [h] at this
    simp at this
    omega
  rw [List.getLast?_eq_getLast _ hne] at hs
  have hlen : (segList n).length - 1 < (segList n).length := by
    rw [segList_length]; omega
  rw [List.getLast_eq_get] at hs
  rw [segList_get n _ (by rw [segList_length] at hlen ⊢; exact hlen)] at hs
  rw [segList_length] at hs
  have hb : segBound n (n - 1 + 1) = 256 := by
    have : n - 1 + 1 = n := by omega
    rw [this, segBound_self n hn]
  injection hs with hs
  subst hs
  simp only [segOf, hb, intToHex_256]
  intro h
  exact absurd (congrArg String.data h) (by decide)

theorem fixLastSegment_eq_self :
    ∀ l : List Segment, (∀ s ∈ l.getLast?, s.EndHex ≠ "ff") → fixLastSegment l = l
  | [], _ => rfl
  | [s], h => by
    have hs : s.EndHex ≠ "ff" := h s (by simp)
    simp [fixLastSegment, hs]
  | s :: t :: rest, h => by
    have h' : ∀ x ∈ (t :: rest).getLast?, x.EndHex ≠ "ff" := by
      intro x hx
      apply h
      rwa [List.getLast?_cons_cons]
    simp only [fixLastSegment]
    rw [fixLastSegment_eq_self (t :: rest) h']

/-- For every valid count, `SegmentHashSpace` returns exactly the closed-form
partition `segList`. -/
theorem segmentHashSpace_ok (n : Int) (h1 : 1 ≤ n) (h2 : n ≤ 256) :
    SegmentHashSpace n = .ok (segList n.toNat) := by
  have hn1 : (1 : Nat) ≤ n.toNat := by omega
  have hn2 : n.toNat ≤ 256 := by omega
  rw [SegmentHashSpace, if_neg (by omega), if_neg (by omega)]
  have hb : buildSegs (256 / n.toNat) (256 % n.toNat) 0 0 n.toNat
      = (List.range' 0 n.toNat).map (segOf n.toNat) := by
    have := buildSegs_eq n.toNat hn1 hn2 n.toNat 0 (by omega)
    rwa [segBound_zero] at this
  simp only [hb]
  rw [show (List.range' 0 n.toNat).map (segOf n.toNat) = segList n.toNat from rfl]
  rw [fixLastSegment_eq_self _ (segList_getLast_endHex n.toNat hn1)]

theorem segmentHashSpace_err (n : Int) (h : n ≤ 0 ∨ 256 < n) :
    ∃ msg, SegmentHashSpace n = .error msg := by
  rcases h with h | h
  · exact ⟨s!"segments must be positive, got {n}", by rw [SegmentHashSpace, if_pos h]⟩
  · exact ⟨s!"segments cannot exceed 256, got {n}",
      by rw [SegmentHashSpace, if_neg (by omega), if_pos (by omega)]⟩

theorem hexDigitVal_hexChar (d : Nat) (hd : d < 16) : hexDigitVal (hexChar d) = some d := by
  interval_cases d <;> decide

theorem parseHexChars_nil (acc : Nat) : parseHexChars [] acc = some acc := rfl

theorem parseHexChars_cons (c : Char) (cs : List Char) (acc : Nat) :
    parseHexChars (c :: cs) acc =
      match hexDigitVal c with
      | some d => parseHexChars cs (acc * 16 + d)
      | none => none := rfl

theorem hexToInt_intToHex (v : Nat) (hv : v ≤ 256) : HexToInt (intToHex v) = .ok v := by
  rcases Nat.lt_or_ge v 256 with h | h
  · rw [intToHex_lt v h, HexToInt]
    have h1 : v / 16 < 16 := by omega
    have h2 : v % 16 < 16 := by omega
    show (match parseHexChars [hexChar (v / 16), hexChar (v % 16)] 0 with
      | some w => if ([hexChar (v / 16), hexChar (v % 16)] : List Char).isEmpty then
          Except.error _ else Except.ok (Int.ofNat w)
      | none => Except.error _) = Except.ok (Int.ofNat v)
    have : (0 * 16 + v / 16) * 16 + v % 16 = v := by omega
    simp only [parseHexChars_cons, hexDigitVal_hexChar _ h1, hexDigitVal_hexChar _ h2,
      parseHexChars_nil, this, List.isEmpty]
    rfl
  · have : v = 256 := by omega
    subst this
    rfl

/-- Character-level monotonicity of the hex digit alphabet. -/
theorem hexChar_lt_iff (a b : Nat) (ha : a < 16) (hb : b < 16) :
    (hexChar a < hexChar b) ↔ a < b := by
  interval_cases a <;> interval_cases b <;> decide

theorem hexChar_eq_iff (a b : Nat) (ha : a < 16) (hb : b < 16) :
    (hexChar a = hexChar b) ↔ a = b := by
  interval_cases a <;> interval_cases b <;> decide

theorem ltCharsB_irrefl : ∀ l : List Char, ltCharsB l l = false
  | [] => rfl
  | a :: as => by
    simp only [ltCharsB, lt_irrefl a, if_neg, if_false]
    exact ltCharsB_irrefl as

theorem ltCharsB_trans :
    ∀ {l₁ l₂ l₃ : List Char}, ltCharsB l₁ l₂ = true → ltCharsB l₂ l₃ = true →
      ltCharsB l₁ l₃ = true
  | [], _ :: _, _ :: _, _, _ => rfl
  | a :: as, b :: bs, c :: cs, h₁, h₂ => by
    simp only [ltCharsB] at h₁ h₂ ⊢
    rcases lt_trichotomy a b with hab | hab | hab
    · rcases lt_trichotomy b c with hbc | hbc | hbc
      · simp [lt_trans hab hbc]
      · subst hbc; simp [hab]
      · rcases lt_trichotomy a c with hac | hac | hac
        · simp [hac]
        · subst hac
          simp [hbc, asymm hbc] at h₂
        · simp [hbc, asymm hbc] at h₂
    · subst hab
      simp [lt_irrefl] at h₁
      rcases lt_trichotomy a c with hac | hac | hac
      · simp [hac]
      · subst hac
        simp [lt_irrefl] at h₂ ⊢
        exact ltCharsB_trans h₁ h₂
      · simp [hac, asymm hac] at h₂
    · simp [hab, asymm hab] at h₁

theorem ltCharsB_trichotomy :
    ∀ l₁ l₂ : List Char, ltCharsB l₁ l₂ = true ∨ l₁ = l₂ ∨ ltCharsB l₂ l₁ = true
  | [], [] => Or.inr (Or.inl rfl)
  | [], _ :: _ => Or.inl rfl
  | _ :: _, [] => Or.inr (Or.inr rfl)
  | a :: as, b :: bs => by
    rcases lt_trichotomy a b with hab | hab | hab
    · left; simp [ltCharsB, hab]
    · subst hab
      rcases ltCharsB_trichotomy as bs with h | h | h
      · left; simp [ltCharsB, lt_irrefl, h]
      · right; left; rw [h]
      · right; right; simp [ltCharsB, lt_irrefl, h]
    · right; right; simp [ltCharsB, hab]

theorem ltCharsB_asymm {l₁ l₂ : List Char} (h : ltCharsB l₁ l₂ = true) :
    ltCharsB l₂ l₁ = false := by
  by_contra hc
  have h2 : ltCharsB l₂ l₁ = true := by
    cases hx : ltCharsB l₂ l₁
    · exact absurd hx hc
    · rfl
  have := ltCharsB_trans h h2
  rw [ltCharsB_irrefl] at this
  cases this

theorem goLeB_refl (s : String) : goLeB s s = true := by
  simp [goLeB, goLtB, ltCharsB_irrefl]

theorem goLeB_total (s t : String) : goLeB s t = true ∨ goLeB t s = true := by
  simp only [goLeB, goLtB, Bool.not_eq_true']
  rcases ltCharsB_trichotomy s.data t.data with h | h | h
  · exact Or.inl (ltCharsB_asymm h)
  · rw [h]; exact Or.inl (ltCharsB_irrefl _)
  · exact Or.inr (ltCharsB_asymm h)

theorem goLeB_trans {s t u : String} (h₁ : goLeB s t = true) (h₂ : goLeB t u = true) :
    goLeB s u = true := by
  simp only [goLeB, goLtB, Bool.not_eq_true'] at h₁ h₂ ⊢
  by_contra hc
  have hus : ltCharsB u.data s.data = true := by
    cases hx : ltCharsB u.data s.data
    · exact absurd hx hc
    · rfl
  rcases ltCharsB_trichotomy u.data t.data with h | h | h
  · rw [h] at h₂; cases h₂
  · rw [← h] at h₁
    rw [hus] at h₁; cases h₁
  · have := ltCharsB_trans h hus
    rw [this] at h₁; cases h₁
  -- (the case analysis above covers u < t directly, u = t by substitution,
  -- and t < u, where transitivity with u < s contradicts s ≤ t)

theorem goLtB_le_trans {s t u : String} (h₁ : goLtB s t = true) (h₂ : goLeB t u = true) :
    goLtB s u = true := by
  simp only [goLeB, goLtB, Bool.not_eq_true'] at h₁ h₂ ⊢
  rcases ltCharsB_trichotomy t.data u.data with h | h | h
  · exact ltCharsB_trans h₁ h
  · rwa [← h]
  · rw [h] at h₂; cases h₂

theorem goLeB_lt_trans {s t u : String} (h₁ : goLeB s t = true) (h₂ : goLtB t u = true) :
    goLtB s u = true := by
  simp only [goLeB, goLtB, Bool.not_eq_true'] at h₁ h₂ ⊢
  rcases ltCharsB_trichotomy s.data t.data with h | h | h
  · exact ltCharsB_trans h h₂
  · rwa [h]
  · rw [h] at h₁; cases h₁

theorem goLtB_le (s t : String) (h : goLtB s t = true) : goLeB s t = true := by
  simp only [goLeB, goLtB, Bool.not_eq_true'] at h ⊢
  exact ltCharsB_asymm h

theorem goLeB_empty_left (s : String) : goLeB (String.mk []) s = true := by
  simp only [goLeB, goLtB, Bool.not_eq_true']
  cases s with
  | mk data => cases data <;> rfl

/-- Two-character string comparison is the expected lexicographic order. -/
theorem two_char_ltB_iff (a b c d : Char) :
    (goLtB (String.mk [a, b]) (String.mk [c, d]) = true) ↔ (a < c ∨ (a = c ∧ b < d)) := by
  simp only [goLtB, ltCharsB]
  rcases lt_trichotomy a c with h | h | h
  · simp [h]
  · subst h
    rcases lt_trichotomy b d with h' | h' | h'
    · simp [lt_irrefl, h']
    · subst h'
      simp [lt_irrefl]
    · simp [lt_irrefl, h', asymm h']
  · simp only [if_neg (asymm h), if_pos h]
    constructor
    · intro hx; cases hx
    · rintro (hc | ⟨rfl, _⟩)
      · exact absurd hc (asymm h)
      · exact absurd h (lt_irrefl a)

/-- Go comparison of two-digit hex renderings agrees with numeric order. -/
theorem intToHex_ltB_iff (x y : Nat) (hx : x < 256) (hy : y < 256) :
    (goLtB (intToHex x) (intToHex y) = true) ↔ x < y := by
  rw [intToHex_lt x hx, intToHex_lt y hy, two_char_ltB_iff]
  rw [hexChar_lt_iff _ _ (by omega) (by omega), hexChar_eq_iff _ _ (by omega) (by omega),
    hexChar_lt_iff _ _ (by omega) (by omega)]
  omega

theorem intToHex_leB_iff (x y : Nat) (hx : x < 256) (hy : y < 256) :
    (goLeB (intToHex x) (intToHex y) = true) ↔ x ≤ y := by
  simp only [goLeB, Bool.not_eq_true']
  constructor
  · intro h
    by_contra hc
    rw [(intToHex_ltB_iff y x hy hx).mpr (by omega)] at h
    cases h
  · intro h
    cases hlt : goLtB (intToHex y) (intToHex x)
    · rfl
    · rw [intToHex_ltB_iff y x hy hx] at hlt
      omega

/-- C1: for every n with 1 <= n <= 256, `SegmentHashSpace n` succeeds and
returns exactly n segments that are contiguous, non-overlapping and cover the
whole prefix space (their numeric boundaries form the chain `segBound n 0 = 0`
up to `segBound n n = 256`), with the first segment starting at "00" and the
last ending at the sentinel "100"; segment i spans `256/n + 1` prefix values
when `i < 256 % n` and `256/n` values otherwise; for n <= 0 or n > 256 it
returns an error. -/
theorem SegmentHashSpace_partition_correct (n : Int) :
    (1 ≤ n → n ≤ 256 →
      ∃ segs, SegmentHashSpace n = Except.ok segs ∧
        segs.length = n.toNat ∧
        segBound n.toNat 0 = 0 ∧ segBound n.toNat n.toNat = 256 ∧
        (∀ i : Nat, ∀ hi : i < segs.length,
          (segs.get ⟨i, hi⟩).Index = i ∧
          HexToInt (segs.get ⟨i, hi⟩).StartHex = Except.ok (segBound n.toNat i) ∧
          HexToInt (segs.get ⟨i, hi⟩).EndHex = Except.ok (segBound n.toNat (i + 1)) ∧
          (i = 0 → (segs.get ⟨i, hi⟩).StartHex = "00") ∧
          (i + 1 = segs.length → (segs.get ⟨i, hi⟩).EndHex = "100") ∧
          (∀ hi' : i + 1 < segs.length,
            (segs.get ⟨i, hi⟩).EndHex = (segs.get ⟨i + 1, hi'⟩).StartHex) ∧
          segBound n.toNat (i + 1) - segBound n.toNat i =
            (if i < 256 % n.toNat then 256 / n.toNat + 1 else 256 / n.toNat))) ∧
    (n ≤ 0 ∨ 256 < n → ∃ msg, SegmentHashSpace n = Except.error msg) := by
  constructor
  · intro h1 h2
    have hn1 : (1 : Nat) ≤ n.toNat := by omega
    have hn2 : n.toNat ≤ 256 := by omega
    refine ⟨segList n.toNat, segmentHashSpace_ok n h1 h2, segList_length _, segBound_zero _,
      segBound_self _ hn1, ?_⟩
    intro i hi
    have hi' : i < n.toNat := by rw [segList_length] at hi; exact hi
    rw [segList_get n.toNat i hi]
    refine ⟨rfl, ?_, ?_, ?_, ?_, ?_, ?_⟩
    · exact hexToInt_intToHex _ (segBound_le_256 _ _ hn1 hn2 (by omega))
    · exact hexToInt_intToHex _ (segBound_le_256 _ _ hn1 hn2 (by omega))
    · rintro rfl
      show intToHex (segBound n.toNat 0) = "00"
      rw [segBound_zero]
      rfl
    · intro hlast
      rw [segList_length] at hlast
      show intToHex (segBound n.toNat (i + 1)) = "100"
      rw [hlast, segBound_self _ hn1]
      rfl
    · intro hi'
      rw [segList_get n.toNat (i + 1) hi']
      rfl
    · have := segBound_succ n.toNat i
      omega
  · exact segmentHashSpace_err n

/-- Witness for C1 at n = 4. -/
theorem SegmentHashSpace_partition_correct_witness :
    ((1 : Int) ≤ 4 ∧ (4 : Int) ≤ 256) ∧
    ∃ segs, SegmentHashSpace 4 = Except.ok segs ∧ segs.length = 4 := by
  refine ⟨by decide, ?_⟩
  obtain ⟨segs, hok, hlen, -⟩ :=
    (SegmentHashSpace_partition_correct 4).1 (by decide) (by decide)
  exact ⟨segs, hok, hlen.trans rfl⟩

/-- C2 counterexample: for n = 1 the only (hence last) segment is
`⟨0, "00", "100"⟩`, whose boundaries `SegmentToHexRange 0 1` reproduces; yet
for the key "20ab" (which lies in the range numerically, prefix 0x20 ∈
[0, 256)) the string-prefix predicate `HashInSegment` answers `false`, because
the two-character prefix "20" is lexicographically greater than the sentinel
boundary string "100". -/
theorem HashInSegment_sentinel_disagrees :
    partitionSegAt 1 0 = some ⟨0, "00", "100"⟩ ∧
    SegmentToHexRange 0 1 = Except.ok ("00", "100") ∧
    HashInSegment "20ab" ⟨0, "00", "100"⟩ = false ∧
    memberViaBoundaries "20ab" "00" "100" = true := by
  refine ⟨by decide, rfl, by decide, by decide⟩

/-- C2 amended: the boundaries returned by `SegmentToHexRange i n` agree with
the i-th segment of `SegmentHashSpace n` for every valid i; and for every
NON-final segment (i + 1 < n) and every row key whose first two characters are
lowercase hex digits, the string-prefix predicate `HashInSegment` agrees with
the numeric membership computed from those boundaries.  (For the final
segment, whose end boundary is the sentinel "100", the two disagree: see the
counterexample.) -/
theorem HashInSegment_agrees_on_non_final_segments
    (n i d1 d2 : Nat) (rest : List Char)
    (hn1 : 1 ≤ n) (hn2 : n ≤ 256) (hi : i < n) (hd1 : d1 < 16) (hd2 : d2 < 16) :
    ∃ seg : Segment,
      partitionSegAt (n : Int) i = some seg ∧
      SegmentToHexRange (i : Int) (n : Int) = Except.ok (seg.StartHex, seg.EndHex) ∧
      (i + 1 < n →
        HashInSegment (String.mk (hexChar d1 :: hexChar d2 :: rest)) seg =
          memberViaBoundaries (String.mk (hexChar d1 :: hexChar d2 :: rest))
            seg.StartHex seg.EndHex) := by
  have hok : SegmentHashSpace (n : Int) = .ok (segList n) := by
    have := segmentHashSpace_ok (n : Int) (by omega) (by omega)
    rwa [Int.toNat_natCast] at this
  have hidx : (segList n)[i]? = some (segOf n i) := by
    rw [List.getElem?_eq_getElem (by rw [segList_length]; exact hi)]
    have := segList_get n i (by rw [segList_length]; exact hi)
    rw [List.get_eq_getElem] at this
    rw [this]
  refine ⟨segOf n i, ?_, ?_, ?_⟩
  · rw [partitionSegAt, hok]
    exact hidx
  · rw [SegmentToHexRange, if_neg (by omega), hok, Int.toNat_natCast]
    show (match (segList n)[i]? with
      | some s => Except.ok (s.StartHex, s.EndHex)
      | none => Except.error
          (toString "segment index " ++ toString (i : Int) ++ toString " out of range")) =
      Except.ok ((segOf n i).StartHex, (segOf n i).EndHex)
    rw [hidx]
  · intro hi2
    set key := String.mk (hexChar d1 :: hexChar d2 :: rest) with hkey
    have hd : key.data = hexChar d1 :: hexChar d2 :: rest := rfl
    set v : Nat := 16 * d1 + d2 with hv
    have hv256 : v < 256 := by omega
    have hpfx : String.mk (key.data.take 2) = intToHex v := by
      rw [hd]
      show String.mk [hexChar d1, hexChar d2] = intToHex v
      rw [intToHex_lt v hv256]
      have e1 : v / 16 = d1 := by omega
      have e2 : v % 16 = d2 := by omega
      rw [e1, e2]
    have ha : segBound n i < 256 := segBound_lt_256 n i hn1 hn2 hi
    have hb : segBound n (i + 1) < 256 := segBound_lt_256 n (i + 1) hn1 hn2 hi2
    have hlen : ¬ key.data.length < 2 := by rw [hd]; simp
    have e1 : goLeB (intToHex (segBound n i)) (intToHex v)
        = decide ((Int.ofNat (segBound n i)) ≤ Int.ofNat v) := by
      rw [Bool.eq_iff_iff, intToHex_leB_iff _ _ ha hv256, decide_eq_true_iff]
      exact Int.ofNat_le.symm
    have e2 : goLtB (intToHex v) (intToHex (segBound n (i + 1)))
        = decide ((Int.ofNat v) < Int.ofNat (segBound n (i + 1))) := by
      rw [Bool.eq_iff_iff, intToHex_ltB_iff _ _ hv256 hb, decide_eq_true_iff]
      exact Int.ofNat_lt.symm
    simp only [HashInSegment, memberViaBoundaries, if_neg hlen, segOf, hpfx,
      hexToInt_intToHex v (by omega : v ≤ 256),
      hexToInt_intToHex (segBound n i) (by omega),
      hexToInt_intToHex (segBound n (i + 1)) (by omega)]
    rw [e1, e2]
    rfl

/-- Witness for the amended C2 at n = 4, i = 1, key "50abc". -/
theorem HashInSegment_agrees_witness :
    HashInSegment (String.mk (hexChar 5 :: hexChar 0 :: "abc".data)) ⟨1, "40", "80"⟩ =
      memberViaBoundaries (String.mk (hexChar 5 :: hexChar 0 :: "abc".data)) "40" "80" := by
  obtain ⟨seg, h1, -, h3⟩ :=
    HashInSegment_agrees_on_non_final_segments 4 1 5 0 "abc".data (by decide) (by decide)
      (by decide) (by decide) (by decide)
  have h0 : partitionSegAt ((4 : Nat) : Int) 1 = some ⟨1, "40", "80"⟩ := by decide
  rw [h0] at h1
  have hseg : seg = ⟨1, "40", "80"⟩ := (Option.some.inj h1).symm
  rw [hseg] at h3
  exact h3 (by decide)

theorem hashCond_iff (seg : Segment) (cur h : String) :
    hashCond seg cur h = true ↔
      (goLeB seg.StartHex h = true ∧
        (if seg.EndHex = "100" then goLeB h "ff" = true else goLtB h seg.EndHex = true) ∧
        (cur ≠ "" → goLtB cur h = true)) := by
  by_cases hend : seg.EndHex = "100" <;> by_cases hcur : cur = "" <;>
    simp [hashCond, hend, hcur, Bool.and_eq_true, and_assoc] <;> tauto

theorem querySegmentInTx_mem (cfg : Config) (db : List Row) (seg : Segment) (cur : String)
    {r : Row} (hr : r ∈ querySegmentInTx cfg db seg cur) :
    r ∈ db ∧ r.tenantID = cfg.tenantID ∧ hashCond seg cur r.hash = true := by
  have h1 : r ∈ List.insertionSort rowLe
      (db.filter (fun x => decide (x.tenantID = cfg.tenantID) && hashCond seg cur x.hash)) :=
    (List.take_sublist _ _).subset hr
  rw [List.mem_insertionSort] at h1
  rw [List.mem_filter] at h1
  obtain ⟨hdb, hcond⟩ := h1
  rw [Bool.and_eq_true, decide_eq_true_eq] at hcond
  exact ⟨hdb, hcond.1, hcond.2⟩

theorem querySegmentInTx_sorted (cfg : Config) (db : List Row) (seg : Segment) (cur : String) :
    List.Pairwise rowLe (querySegmentInTx cfg db seg cur) := by
  haveI : IsTotal Row rowLe := ⟨fun a b => goLeB_total a.hash b.hash⟩
  haveI : IsTrans Row rowLe := ⟨fun _ _ _ => goLeB_trans⟩
  have h := List.sorted_insertionSort rowLe
    (db.filter (fun x => decide (x.tenantID = cfg.tenantID) && hashCond seg cur x.hash))
  exact h.sublist (List.take_sublist _ _)

theorem querySegmentInTx_len (cfg : Config) (db : List Row) (seg : Segment) (cur : String) :
    (querySegmentInTx cfg db seg cur).length ≤ cfg.batchSize := by
  rw [querySegmentInTx]
  exact (List.length_take_le _ _)

/-- C3: for every segment and cursor value, the rows returned by
`querySegmentInTx` satisfy exactly the claimed filter — `key >= startKey` and
`key < endKey` for segments whose endKey is not the sentinel "100", and
`key >= startKey` and `key <= "ff"` for the sentinel-terminated last segment —
with the additional `key > cursor` predicate conjoined when the cursor is
non-empty; the rows are ordered ascending by key, and the result size is
capped at the configured `BatchSize`. -/
theorem querySegmentInTx_filter_order_cap (cfg : Config) (db : List Row) (seg : Segment)
    (cursor : String) :
    (querySegmentInTx cfg db seg cursor).length ≤ cfg.batchSize ∧
    List.Pairwise rowLe (querySegmentInTx cfg db seg cursor) ∧
    (∀ r ∈ querySegmentInTx cfg db seg cursor,
      r ∈ db ∧ r.tenantID = cfg.tenantID ∧
      goLeB seg.StartHex r.hash = true ∧
      (seg.EndHex = "100" → goLeB r.hash "ff" = true) ∧
      (seg.EndHex ≠ "100" → goLtB r.hash seg.EndHex = true) ∧
      (cursor ≠ "" → goLtB cursor r.hash = true)) := by
  refine ⟨querySegmentInTx_len cfg db seg cursor, querySegmentInTx_sorted cfg db seg cursor, ?_⟩
  intro r hr
  obtain ⟨hdb, htid, hcond⟩ := querySegmentInTx_mem cfg db seg cursor hr
  rw [hashCond_iff] at hcond
  obtain ⟨hstart, hrange, hcur⟩ := hcond
  refine ⟨hdb, htid, hstart, ?_, ?_, hcur⟩
  · intro h100
    rwa [if_pos h100] at hrange
  · intro h100
    rwa [if_neg h100] at hrange

/-- Witness for C3 at a concrete snapshot. -/
theorem querySegmentInTx_filter_order_cap_witness :
    (querySegmentInTx { tenantID := 1, tableName := "fis_aggr", s3Pfx := "p", batchSize := 2 }
        [{ tenantID := 1, hash := "0a1", aggr := "x", lastModified := none, version := none },
         { tenantID := 1, hash := "3f2", aggr := "y", lastModified := none, version := none }]
        { Index := 0, StartHex := "00", EndHex := "40" } "").length ≤ 2 :=
  (querySegmentInTx_filter_order_cap
    { tenantID := 1, tableName := "fis_aggr", s3Pfx := "p", batchSize := 2 }
    [{ tenantID := 1, hash := "0a1", aggr := "x", lastModified := none, version := none },
     { tenantID := 1, hash := "3f2", aggr := "y", lastModified := none, version := none }]
    { Index := 0, StartHex := "00", EndHex := "40" } "").1

theorem string_empty_append (s : String) : "" ++ s = s := by
  cases s with
  | mk data => show String.mk ([] ++ data) = String.mk data; rw [List.nil_append]

theorem string_append_empty (s : String) : s ++ "" = s := by
  cases s with
  | mk data => show String.mk (data ++ []) = String.mk data; rw [List.append_nil]

theorem string_append_assoc (a b c : String) : a ++ b ++ c = a ++ (b ++ c) := by
  cases a with
  | mk da =>
    cases b with
    | mk db =>
      cases c with
      | mk dc => show String.mk (da ++ db ++ dc) = String.mk (da ++ (db ++ dc))
                 rw [List.append_assoc]

theorem concatAll_append (l₁ l₂ : List String) :
    concatAll (l₁ ++ l₂) = concatAll l₁ ++ concatAll l₂ := by
  induction l₁ with
  | nil => rw [List.nil_append, concatAll, string_empty_append]
  | cons s rest ih => rw [List.cons_append, concatAll, concatAll, ih, string_append_assoc]

/-- In a list sorted by `rowLe`, every element is bounded by the last one. -/
theorem pairwise_le_getLast :
    ∀ {l : List Row}, List.Pairwise rowLe l → ∀ (hne : l ≠ []) (r : Row), r ∈ l →
      goLeB r.hash (l.getLast hne).hash = true
  | [], _, hne, _, _ => absurd rfl hne
  | [x], _, _, r, hr => by
    rw [List.mem_singleton] at hr
    subst hr
    exact goLeB_refl _
  | x :: y :: rest, hp, _, r, hr => by
    rw [List.getLast_cons (by simp)]
    rcases List.mem_cons.mp hr with rfl | hr'
    · have hlast : (y :: rest).getLast (by simp) ∈ y :: rest := List.getLast_mem _
      exact List.rel_of_pairwise_cons hp hlast
    · exact pairwise_le_getLast hp.tail (by simp) r hr'

theorem goLeB_empty_left' (s : String) : goLeB "" s = true := by
  cases s with
  | mk data => cases data <;> rfl

theorem entryInv_to_exitInv {st : ExportState} (h : EntryInv st) : ExitInv st := by
  rcases h with ⟨_, hc, hp, _, ht⟩ | ⟨_, hg⟩
  · exact Or.inl ⟨hc, hp, ht⟩
  · exact Or.inr hg

theorem rowsToCSVBytes_true (rows : List Row) :
    rowsToCSVBytes rows true
      = writeRecord csvHeader ++ concatAll (rows.map (fun r => writeRecord (rowRecord r))) := by
  rw [rowsToCSVBytes, if_pos rfl, List.singleton_append, concatAll]

theorem rowsToCSVBytes_false (rows : List Row) :
    rowsToCSVBytes rows false = concatAll (rows.map (fun r => writeRecord (rowRecord r))) := by
  rw [rowsToCSVBytes, if_neg (by simp), List.nil_append]

theorem rowsToCSVBytes_append (A B : List Row) :
    rowsToCSVBytes A true ++ rowsToCSVBytes B false = rowsToCSVBytes (A ++ B) true := by
  rw [rowsToCSVBytes_true A, rowsToCSVBytes_false B, rowsToCSVBytes_true (A ++ B),
    List.map_append, concatAll_append, string_append_assoc]

/-- One successful nonempty batch turns any entry state into a good state. -/
theorem step_good (cfg : Config) (db : List Row) (seg : Segment) (st : ExportState)
    (hst : EntryInv st) (r0 : Row) (rest : List Row)
    (hq : querySegmentInTx cfg db seg (if st.batchNum = 0 then "" else st.lastHash)
      = r0 :: rest) :
    GoodState
      { lastHash := ((r0 :: rest).getLast (by simp)).hash
        batchNum := st.batchNum
        totalRows := st.totalRows + (r0 :: rest).length
        headerWritten := true
        parts := st.parts ++ [rowsToCSVBytes (r0 :: rest) (!st.headerWritten)]
        collected := st.collected ++ (r0 :: rest) } := by
  have hsort : List.Pairwise rowLe (r0 :: rest) := by
    rw [← hq]; exact querySegmentInTx_sorted cfg db seg _
  have hlastmax : ∀ r ∈ r0 :: rest,
      goLeB r.hash (((r0 :: rest).getLast (by simp)).hash) = true :=
    fun r hr => pairwise_le_getLast hsort (by simp) r hr
  unfold EntryInv at hst
  rcases hst with ⟨hb0, hcoll, hparts, hhdr, htot⟩ |
    ⟨hb1, hhdr, hjoin, htot, hpw, hbound, hcne, hpne⟩
  · refine ⟨rfl, ?_, ?_, ?_, ?_, ?_, by simp⟩
    · show concatAll (st.parts ++ [rowsToCSVBytes (r0 :: rest) (!st.headerWritten)])
        = rowsToCSVBytes (st.collected ++ (r0 :: rest)) true
      rw [hparts, hcoll, List.nil_append, List.nil_append, concatAll, concatAll,
        string_append_empty, hhdr]
      rfl
    · show st.totalRows + (r0 :: rest).length = (st.collected ++ (r0 :: rest)).length
      rw [htot, hcoll, List.nil_append, Nat.zero_add]
    · show List.Pairwise rowLe (st.collected ++ (r0 :: rest))
      rw [hcoll, List.nil_append]; exact hsort
    · intro r hr
      rw [hcoll, List.nil_append] at hr
      exact hlastmax r hr
    · rw [hcoll]; simp
  · have hcursor : ∀ b ∈ r0 :: rest, goLeB st.lastHash b.hash = true := by
      intro b hb
      have hmem : b ∈ querySegmentInTx cfg db seg
          (if st.batchNum = 0 then "" else st.lastHash) := by rw [hq]; exact hb
      obtain ⟨-, -, hcond⟩ := querySegmentInTx_mem cfg db seg _ hmem
      rw [hashCond_iff] at hcond
      have hcur := hcond.2.2
      rw [if_neg (by omega)] at hcur
      by_cases hempty : st.lastHash = ""
      · rw [hempty]; exact goLeB_empty_left' _
      · exact goLtB_le _ _ (hcur hempty)
    have hcross : ∀ a ∈ st.collected, ∀ b ∈ r0 :: rest, rowLe a b := by
      intro a ha b hb
      exact goLeB_trans (hbound a ha) (hcursor b hb)
    refine ⟨rfl, ?_, ?_, ?_, ?_, by simp [hcne], by simp⟩
    · show concatAll (st.parts ++ [rowsToCSVBytes (r0 :: rest) (!st.headerWritten)])
        = rowsToCSVBytes (st.collected ++ (r0 :: rest)) true
      rw [hhdr, concatAll_append, concatAll, concatAll, string_append_empty, hjoin]
      show rowsToCSVBytes st.collected true ++ rowsToCSVBytes (r0 :: rest) false
        = rowsToCSVBytes (st.collected ++ (r0 :: rest)) true
      exact rowsToCSVBytes_append st.collected (r0 :: rest)
    · show st.totalRows + (r0 :: rest).length = (st.collected ++ (r0 :: rest)).length
      rw [htot, List.length_append]
    · show List.Pairwise rowLe (st.collected ++ (r0 :: rest))
      rw [List.pairwise_append]
      exact ⟨hpw, hsort, hcross⟩
    · intro r hr
      rcases List.mem_append.mp hr with hr' | hr'
      · exact goLeB_trans (hbound r hr')
          (hcursor _ (List.getLast_mem (by simp)))
      · exact hlastmax r hr'

/-- The pagination loop against a snapshot never errors and lands in a state
satisfying the exit invariant. -/
theorem exportLoop_db_invariant (cfg : Config) (db : List Row) (seg : Segment) :
    ∀ (fuel : Nat) (st : ExportState), EntryInv st →
      (exportLoop (qDB cfg db seg) (fun _ => none) cfg.batchSize fuel st).2 = none ∧
      ExitInv (exportLoop (qDB cfg db seg) (fun _ => none) cfg.batchSize fuel st).1 := by
  intro fuel
  induction fuel with
  | zero =>
    intro st hst
    exact ⟨rfl, entryInv_to_exitInv hst⟩
  | succ fuel ih =>
    intro st hst
    rcases hq : querySegmentInTx cfg db seg (if st.batchNum = 0 then "" else st.lastHash) with
      _ | ⟨r0, rest⟩
    · have heq : exportLoop (qDB cfg db seg) (fun _ => none) cfg.batchSize (fuel + 1) st
          = (st, none) := by
        simp only [exportLoop, qDB, hq]
      rw [heq]
      exact ⟨rfl, entryInv_to_exitInv hst⟩
    · have hgood := step_good cfg db seg st hst r0 rest hq
      simp only [exportLoop, qDB, hq]
      by_cases hlt : (r0 :: rest).length < cfg.batchSize
      · rw [if_pos hlt]
        exact ⟨rfl, Or.inr hgood⟩
      · rw [if_neg hlt]
        apply ih
        refine Or.inr ⟨?_, hgood⟩
        show 1 ≤ st.batchNum + 1
        omega

/-- C4: for every segment export over a snapshot that reaches `Complete`
successfully (the result is an object), the concatenation of the uploaded
parts, in upload (= ascending part-number) order, equals the CSV
serialization of all rows returned by sequential cursor pagination for that
segment, with exactly one header record — the header appears once, in the
first (non-empty) part only, because `rowsToCSVBytes rows true` prefixes the
single header record to the row records of the collected rows, and the
collected rows are in ascending key order. -/
theorem ExportSegment_roundtrip (cfg : Config) (db : List Row) (seg : Segment) (f : CSVFile)
    (h : (ExportSegmentDB cfg db seg).result = .ok (some f)) :
    concatAll (ExportSegmentDB cfg db seg).parts
      = rowsToCSVBytes (ExportSegmentDB cfg db seg).collected true ∧
    List.Pairwise rowLe (ExportSegmentDB cfg db seg).collected ∧
    (ExportSegmentDB cfg db seg).sinkCompleted = true ∧
    f.rowCount = (ExportSegmentDB cfg db seg).collected.length := by
  have hinv := exportLoop_db_invariant cfg db seg 10000 initExportState
    (Or.inl ⟨rfl, rfl, rfl, rfl, rfl⟩)
  rcases hrun : exportLoop (qDB cfg db seg) (fun _ => none) cfg.batchSize 10000 initExportState
    with ⟨st, err⟩
  rw [hrun] at hinv
  obtain ⟨herr, hexit⟩ := hinv
  simp only at herr
  subst herr
  have hout : ExportSegmentDB cfg db seg =
      (if st.totalRows = 0 then
        { result := .ok none, sinkCreated := true, parts := st.parts, sinkAborted := true
          sinkCompleted := false, txBegun := true, txRolledBack := true
          collected := st.collected }
      else if st.parts.isEmpty then
        { result := .error "failed to complete multipart upload: no parts uploaded"
          sinkCreated := true, parts := st.parts, sinkAborted := true, sinkCompleted := false
          txBegun := true, txRolledBack := true, collected := st.collected }
      else
        { result := .ok (some { filePath := "", s3Key := s3KeyFor cfg seg, seg := seg
                                rowCount := st.totalRows })
          sinkCreated := true, parts := st.parts, sinkAborted := false, sinkCompleted := true
          txBegun := true, txRolledBack := true, collected := st.collected }) := by
    show ExportSegment cfg seg none none (qDB cfg db seg) (fun _ => none) = _
    rw [ExportSegment]
    simp only [initExportState] at hrun
    rw [hrun]
  rw [hout] at h ⊢
  by_cases h0 : st.totalRows = 0
  · rw [if_pos h0] at h
    exact absurd (Except.ok.inj h) (by simp)
  · rw [if_neg h0] at h ⊢
    rcases hexit with ⟨-, -, ht⟩ | ⟨-, hjoin, htot, hpw, -, -, hpne⟩
    · exact absurd ht h0
    · have hpe : ¬ st.parts.isEmpty := by
        cases hp : st.parts
        · exact absurd hp hpne
        · simp [hp]
      rw [if_neg hpe] at h ⊢
      have hf := Except.ok.inj h
      have hf' := Option.some.inj hf
      refine ⟨hjoin, hpw, rfl, ?_⟩
      rw [← hf']
      exact htot

/-- Witness for C4 on a one-row snapshot. -/
theorem ExportSegment_roundtrip_witness :
    concatAll (ExportSegmentDB { tenantID := 1, tableName := "t", s3Pfx := "p", batchSize := 10 }
        [{ tenantID := 1, hash := "0a", aggr := "x", lastModified := none, version := none }]
        { Index := 0, StartHex := "00", EndHex := "40" }).parts
      = rowsToCSVBytes (ExportSegmentDB { tenantID := 1, tableName := "t", s3Pfx := "p", batchSize := 10 }
        [{ tenantID := 1, hash := "0a", aggr := "x", lastModified := none, version := none }]
        { Index := 0, StartHex := "00", EndHex := "40" }).collected true := by
  refine (ExportSegment_roundtrip _ _ _
    { filePath := "", s3Key := s3KeyFor { tenantID := 1, tableName := "t", s3Pfx := "p", batchSize := 10 }
        { Index := 0, StartHex := "00", EndHex := "40" }, seg := { Index := 0, StartHex := "00", EndHex := "40" }
      rowCount := 1 } ?_).1
  rfl

/-- C9: for every segment whose pagination yields zero rows in total, the
export aborts the upload sink and returns no object and no error
(`.ok none`); an object with the accumulated row count is returned only when
at least one row was produced. -/
theorem ExportSegment_no_rows_no_object (cfg : Config) (db : List Row) (seg : Segment) :
    ((ExportSegmentDB cfg db seg).collected = [] →
      (ExportSegmentDB cfg db seg).result = .ok none ∧
      (ExportSegmentDB cfg db seg).sinkAborted = true) ∧
    (∀ f : CSVFile, (ExportSegmentDB cfg db seg).result = .ok (some f) →
      0 < f.rowCount ∧ f.rowCount = (ExportSegmentDB cfg db seg).collected.length) := by
  have hinv := exportLoop_db_invariant cfg db seg 10000 initExportState
    (Or.inl ⟨rfl, rfl, rfl, rfl, rfl⟩)
  rcases hrun : exportLoop (qDB cfg db seg) (fun _ => none) cfg.batchSize 10000 initExportState
    with ⟨st, err⟩
  rw [hrun] at hinv
  obtain ⟨herr, hexit⟩ := hinv
  simp only at herr
  subst herr
  have hout : ExportSegmentDB cfg db seg =
      (if st.totalRows = 0 then
        { result := .ok none, sinkCreated := true, parts := st.parts, sinkAborted := true
          sinkCompleted := false, txBegun := true, txRolledBack := true
          collected := st.collected }
      else if st.parts.isEmpty then
        { result := .error "failed to complete multipart upload: no parts uploaded"
          sinkCreated := true, parts := st.parts, sinkAborted := true, sinkCompleted := false
          txBegun := true, txRolledBack := true, collected := st.collected }
      else
        { result := .ok (some { filePath := "", s3Key := s3KeyFor cfg seg, seg := seg
                                rowCount := st.totalRows })
          sinkCreated := true, parts := st.parts, sinkAborted := false, sinkCompleted := true
          txBegun := true, txRolledBack := true, collected := st.collected }) := by
    show ExportSegment cfg seg none none (qDB cfg db seg) (fun _ => none) = _
    rw [ExportSegment]
    simp only [initExportState] at hrun
    rw [hrun]
  rw [hout]
  constructor
  · intro hcoll
    have hcoll' : st.collected = [] := by
      by_cases h0 : st.totalRows = 0
      · rw [if_pos h0] at hcoll; exact hcoll
      · rw [if_neg h0] at hcoll
        by_cases hpe : st.parts.isEmpty
        · rw [if_pos hpe] at hcoll; exact hcoll
        · rw [if_neg hpe] at hcoll; exact hcoll
    have h0 : st.totalRows = 0 := by
      rcases hexit with ⟨-, -, ht⟩ | ⟨-, -, htot, -, -, hcne, -⟩
      · exact ht
      · exact absurd hcoll' hcne
    rw [if_pos h0]
    exact ⟨rfl, rfl⟩
  · intro f hf
    by_cases h0 : st.totalRows = 0
    · rw [if_pos h0] at hf
      exact absurd (Except.ok.inj hf) (by simp)
    · rw [if_neg h0] at hf ⊢
      rcases hexit with ⟨-, -, ht⟩ | ⟨-, -, htot, -, -, -, hpne⟩
      · exact absurd ht h0
      · have hpe : ¬ st.parts.isEmpty := by
          cases hp : st.parts
          · exact absurd hp hpne
          · simp [hp]
        rw [if_neg hpe] at hf ⊢
        have hf' := Option.some.inj (Except.ok.inj hf)
        rw [← hf']
        refine ⟨?_, ?_⟩
        · show 0 < st.totalRows
          omega
        · show st.totalRows = st.collected.length
          exact htot

/-- Witness for C9 on an empty snapshot. -/
theorem ExportSegment_no_rows_no_object_witness :
    (ExportSegmentDB { tenantID := 1, tableName := "t", s3Pfx := "p", batchSize := 10 } []
        { Index := 0, StartHex := "00", EndHex := "40" }).result = Except.ok none ∧
    (ExportSegmentDB { tenantID := 1, tableName := "t", s3Pfx := "p", batchSize := 10 } []
        { Index := 0, StartHex := "00", EndHex := "40" }).sinkAborted = true :=
  (ExportSegment_no_rows_no_object
    { tenantID := 1, tableName := "t", s3Pfx := "p", batchSize := 10 } []
    { Index := 0, StartHex := "00", EndHex := "40" }).1 rfl

/-- C5 (code-bug evidence): when the very first `querySegmentInTx` call fails
(after the upload stream and the transaction were opened successfully), the
error is returned wrapped and the transaction is rolled back, but the
multipart upload session is NOT aborted: the deferred abort tests the
function-scope `err`, which the query error never reaches because it is
returned through the separately scoped `queryErr` variable. -/
theorem ExportSegment_query_error_leaves_session_unaborted :
    (ExportSegment { tenantID := 1, tableName := "t", s3Pfx := "p", batchSize := 10 }
        { Index := 0, StartHex := "00", EndHex := "40" } none none
        (fun _ _ => .error "boom") (fun _ => none)).result
      = .error "failed to query segment: boom" ∧
    (ExportSegment { tenantID := 1, tableName := "t", s3Pfx := "p", batchSize := 10 }
        { Index := 0, StartHex := "00", EndHex := "40" } none none
        (fun _ _ => .error "boom") (fun _ => none)).txRolledBack = true ∧
    (ExportSegment { tenantID := 1, tableName := "t", s3Pfx := "p", batchSize := 10 }
        { Index := 0, StartHex := "00", EndHex := "40" } none none
        (fun _ _ => .error "boom") (fun _ => none)).sinkCreated = true ∧
    (ExportSegment { tenantID := 1, tableName := "t", s3Pfx := "p", batchSize := 10 }
        { Index := 0, StartHex := "00", EndHex := "40" } none none
        (fun _ _ => .error "boom") (fun _ => none)).sinkAborted = false :=
  ⟨rfl, rfl, rfl, rfl⟩

/-- C6 counterexample: at the configuration of the repository's own test
(tenant 999999, table fis_aggr, segment 00-40), the key built by
`ExportSegment` is
`test-pfx/tenant-999999/fis_aggr/tenant-999999.fis_aggr.hash-00-40.csv`,
not the spec's `{table}.hash-...` filename. -/
theorem s3Key_spec_format_counterexample :
    s3KeyFor { tenantID := 999999, tableName := "fis_aggr", s3Pfx := "test-pfx", batchSize := 1 }
        { Index := 0, StartHex := "00", EndHex := "40" }
      = "test-pfx/tenant-999999/fis_aggr/tenant-999999.fis_aggr.hash-00-40.csv" ∧
    specRemoteKey { tenantID := 999999, tableName := "fis_aggr", s3Pfx := "test-pfx", batchSize := 1 }
        { Index := 0, StartHex := "00", EndHex := "40" }
      = "test-pfx/tenant-999999/fis_aggr/fis_aggr.hash-00-40.csv" ∧
    s3KeyFor { tenantID := 999999, tableName := "fis_aggr", s3Pfx := "test-pfx", batchSize := 1 }
        { Index := 0, StartHex := "00", EndHex := "40" }
      ≠ specRemoteKey { tenantID := 999999, tableName := "fis_aggr", s3Pfx := "test-pfx", batchSize := 1 }
        { Index := 0, StartHex := "00", EndHex := "40" } :=
  ⟨rfl, rfl, by decide⟩

/-- C6 amended: the remote object key produced by `ExportSegment` equals,
character for character,
`{prefix}/tenant-{tenantId}/{table}/tenant-{tenantId}.{table}.hash-{startKey}-{endKey}.csv`
(the spec's format with the filename stem corrected from `{table}` to
`tenant-{tenantId}.{table}`). -/
theorem s3Key_format (cfg : Config) (db : List Row) (seg : Segment) :
    s3KeyFor cfg seg = actualRemoteKey cfg seg ∧
    (∀ f : CSVFile, (ExportSegmentDB cfg db seg).result = .ok (some f) →
      f.s3Key = actualRemoteKey cfg seg) := by
  have hkey : s3KeyFor cfg seg = actualRemoteKey cfg seg := by
    simp only [s3KeyFor, actualRemoteKey, string_append_assoc]
  refine ⟨hkey, ?_⟩
  intro f hf
  rcases hrun : exportLoop (qDB cfg db seg) (fun _ => none) cfg.batchSize 10000 initExportState
    with ⟨st, err⟩
  have hinv := exportLoop_db_invariant cfg db seg 10000 initExportState
    (Or.inl ⟨rfl, rfl, rfl, rfl, rfl⟩)
  rw [hrun] at hinv
  obtain ⟨herr, -⟩ := hinv
  simp only at herr
  subst herr
  have hout : ExportSegmentDB cfg db seg =
      (if st.totalRows = 0 then
        { result := .ok none, sinkCreated := true, parts := st.parts, sinkAborted := true
          sinkCompleted := false, txBegun := true, txRolledBack := true
          collected := st.collected }
      else if st.parts.isEmpty then
        { result := .error "failed to complete multipart upload: no parts uploaded"
          sinkCreated := true, parts := st.parts, sinkAborted := true, sinkCompleted := false
          txBegun := true, txRolledBack := true, collected := st.collected }
      else
        { result := .ok (some { filePath := "", s3Key := s3KeyFor cfg seg, seg := seg
                                rowCount := st.totalRows })
          sinkCreated := true, parts := st.parts, sinkAborted := false, sinkCompleted := true
          txBegun := true, txRolledBack := true, collected := st.collected }) := by
    show ExportSegment cfg seg none none (qDB cfg db seg) (fun _ => none) = _
    rw [ExportSegment]
    simp only [initExportState] at hrun
    rw [hrun]
  rw [hout] at hf
  by_cases h0 : st.totalRows = 0
  · rw [if_pos h0] at hf
    exact absurd (Except.ok.inj hf) (by simp)
  · rw [if_neg h0] at hf
    by_cases hpe : st.parts.isEmpty
    · rw [if_pos hpe] at hf
      cases hf
    · rw [if_neg hpe] at hf
      have hf' := Option.some.inj (Except.ok.inj hf)
      rw [← hf']
      exact hkey

/-- Witness for the amended C6 at the test configuration. -/
theorem s3Key_format_witness :
    s3KeyFor { tenantID := 999999, tableName := "fis_aggr", s3Pfx := "test-pfx", batchSize := 1 }
        { Index := 0, StartHex := "00", EndHex := "40" }
      = actualRemoteKey { tenantID := 999999, tableName := "fis_aggr", s3Pfx := "test-pfx", batchSize := 1 }
        { Index := 0, StartHex := "00", EndHex := "40" } :=
  (s3Key_format { tenantID := 999999, tableName := "fis_aggr", s3Pfx := "test-pfx", batchSize := 1 }
    [] { Index := 0, StartHex := "00", EndHex := "40" }).1

theorem runAttempts_spec (f : Nat → Bool) :
    ∀ (budget a : Nat), 1 ≤ budget →
      ((runAttempts f a budget).1 = false ↔ ∀ x, a ≤ x → x < a + budget → f x = false) ∧
      (runAttempts f a budget).2 = List.range' a (runAttempts f a budget).2.length ∧
      (runAttempts f a budget).2.length + 1 ≤ budget := by
  intro budget
  induction budget with
  | zero => intro a h; cases h
  | succ b ih =>
    intro a _
    by_cases hfa : f a = true
    · rw [show runAttempts f a (b + 1) = (true, []) from by rw [runAttempts, if_pos hfa]]
      refine ⟨?_, rfl, by simp⟩
      constructor
      · intro h; cases h
      · intro h
        have := h a (Nat.le_refl a) (by omega)
        rw [hfa] at this; cases this
    · have hfa' : f a = false := by
        cases hx : f a
        · rfl
        · exact absurd hx hfa
      by_cases hb : b = 0
      · subst hb
        rw [show runAttempts f a 1 = (false, []) from by
          rw [runAttempts, if_neg (by rw [hfa']; simp), if_pos rfl]]
        refine ⟨?_, rfl, by simp⟩
        constructor
        · intro _ x hx1 hx2
          have : x = a := by omega
          subst this; exact hfa'
        · intro _; rfl
      · have hstep : runAttempts f a (b + 1)
            = ((runAttempts f (a + 1) b).1, a :: (runAttempts f (a + 1) b).2) := by
          rw [runAttempts, if_neg (by rw [hfa']; simp), if_neg hb]
        obtain ⟨ih1, ih2, ih3⟩ := ih (a + 1) (by omega)
        rw [hstep]
        refine ⟨?_, ?_, by simpa using (by omega : (runAttempts f (a+1) b).2.length + 2 ≤ b + 1)⟩
        · simp only
          rw [ih1]
          constructor
          · intro h x hx1 hx2
            rcases Nat.eq_or_lt_of_le hx1 with rfl | hlt
            · exact hfa'
            · exact h x hlt (by omega)
          · intro h x hx1 hx2
            exact h x (by omega) (by omega)
        · simp only [List.length_cons]
          rw [List.range'_succ, ← ih2]

/-- C7 counterexample: when every attempt of one `UploadPart` call fails, the
observed sleep multipliers are `[1, 2, 3, 4]` (the source sleeps
`initialRetryDelay * attempt`): a linearly increasing sequence, not an
exponential (doubling) backoff such as the one `UploadFileWithRetry` in the
same file uses (`delay = delay * 2`, i.e. multipliers 1, 2, 4, 8). -/
theorem UploadPart_backoff_not_exponential :
    (MultipartUploadStream.UploadPart (fun _ => false) newMultipartUploadStream "x").2.2
      = [1, 2, 3, 4] ∧
    ¬ List.Chain' (fun x y => y = 2 * x)
      (MultipartUploadStream.UploadPart (fun _ => false) newMultipartUploadStream "x").2.2 ∧
    (MultipartUploadStream.UploadPart (fun _ => false) newMultipartUploadStream "x").1.aborted
      = true ∧
    (MultipartUploadStream.UploadPart
      (fun _ => false) newMultipartUploadStream "x").2.1.isSome = true := by
  refine ⟨rfl, ?_, rfl, rfl⟩
  intro h
  rw [show (MultipartUploadStream.UploadPart
    (fun _ => false) newMultipartUploadStream "x").2.2 = [1, 2, 3, 4] from rfl] at h
  rcases h with - | ⟨-, h⟩
  rcases h with - | ⟨h12, h⟩
  rcases h with - | ⟨h23, -⟩
  omega

/-- One `UploadPart` call preserves the part-numbering invariant. -/
theorem uploadPart_preserves_numbered (f : Nat → Bool) (m : MultipartUploadStream)
    (data : String) (hnum : partsNumbered m) :
    partsNumbered (MultipartUploadStream.UploadPart f m data).1 := by
  obtain ⟨hmap, hcount⟩ := hnum
  by_cases hd : data = ""
  · rw [MultipartUploadStream.UploadPart, if_pos hd]
    exact ⟨hmap, hcount⟩
  · have hstep : MultipartUploadStream.UploadPart f m data = (if (runAttempts f 1 5).1 then ({ m with parts := m.parts ++ [(m.partNumber, data)], partNumber := m.partNumber + 1 }, none, (runAttempts f 1 5).2) else ({ m with aborted := true }, some s!"failed to upload part {m.partNumber}", (runAttempts f 1 5).2)) := by
      rw [MultipartUploadStream.UploadPart, if_neg hd]
    by_cases hr : (runAttempts f 1 5).1 = true
    · rw [hstep, if_pos hr]
      constructor
      · show (m.parts ++ [(m.partNumber, data)]).map Prod.fst
          = List.range' 1 (m.parts ++ [(m.partNumber, data)]).length
        rw [List.map_append, hmap, List.length_append]
        simp [List.range'_1_concat, hcount, Nat.add_comm]
      · show m.partNumber + 1 = (m.parts ++ [(m.partNumber, data)]).length + 1
        rw [List.length_append, hcount]
        simp
    · rw [hstep, if_neg hr]
      exact ⟨hmap, hcount⟩

/-- C7 amended: `UploadPart` is a no-op on empty input; otherwise it retries
up to 5 attempts with LINEARLY increasing backoff (the sleep multipliers
between consecutive attempts are 1, 2, 3, ...); on some attempt succeeding it
appends exactly one part carrying the next sequential part number (so parts
are numbered 1, 2, 3, ... consecutively, by the preserved `partsNumbered`
invariant); if all 5 attempts fail the session is aborted and the error is
returned. -/
theorem UploadPart_spec (f : Nat → Bool) (m : MultipartUploadStream) (data : String) :
    (data = "" → MultipartUploadStream.UploadPart f m data = (m, none, [])) ∧
    (data ≠ "" →
      ((MultipartUploadStream.UploadPart f m data).2.1 = none →
        (MultipartUploadStream.UploadPart f m data).1.parts
          = m.parts ++ [(m.partNumber, data)] ∧
        (MultipartUploadStream.UploadPart f m data).1.partNumber = m.partNumber + 1 ∧
        (MultipartUploadStream.UploadPart f m data).1.aborted = m.aborted) ∧
      ((MultipartUploadStream.UploadPart f m data).2.1 ≠ none →
        (∀ a, 1 ≤ a → a ≤ 5 → f a = false) ∧
        (MultipartUploadStream.UploadPart f m data).1.aborted = true ∧
        (MultipartUploadStream.UploadPart f m data).1.parts = m.parts ∧
        (MultipartUploadStream.UploadPart f m data).1.partNumber = m.partNumber) ∧
      (MultipartUploadStream.UploadPart f m data).2.2
        = List.range' 1 (MultipartUploadStream.UploadPart f m data).2.2.length ∧
      (MultipartUploadStream.UploadPart f m data).2.2.length ≤ 4) ∧
    (partsNumbered m → partsNumbered (MultipartUploadStream.UploadPart f m data).1) := by
  obtain ⟨hiff, hsleeps, hlen⟩ := runAttempts_spec f 5 1 (by omega)
  refine ⟨?_, ?_, ?_⟩
  · intro hd
    rw [MultipartUploadStream.UploadPart, if_pos hd]
  · intro hd
    have hstep : MultipartUploadStream.UploadPart f m data = (if (runAttempts f 1 5).1 then ({ m with parts := m.parts ++ [(m.partNumber, data)], partNumber := m.partNumber + 1 }, none, (runAttempts f 1 5).2) else ({ m with aborted := true }, some s!"failed to upload part {m.partNumber}", (runAttempts f 1 5).2)) := by
      rw [MultipartUploadStream.UploadPart, if_neg hd]
    by_cases hr : (runAttempts f 1 5).1 = true
    · rw [hstep, if_pos hr]
      refine ⟨fun _ => ⟨rfl, rfl, rfl⟩, fun hne => absurd rfl hne, ?_, ?_⟩
      · exact hsleeps
      · show (runAttempts f 1 5).2.length ≤ 4
        omega
    · rw [hstep, if_neg hr]
      have hr' : (runAttempts f 1 5).1 = false := by
        cases hx : (runAttempts f 1 5).1
        · rfl
        · exact absurd hx hr
      refine ⟨fun h => ?_, fun _ => ⟨?_, rfl, rfl, rfl⟩, ?_, ?_⟩
      · exact absurd h (by simp)
      · intro a ha1 ha5
        exact hiff.mp hr' a ha1 (by omega)
      · exact hsleeps
      · show (runAttempts f 1 5).2.length ≤ 4
        omega
  · exact uploadPart_preserves_numbered f m data

/-- Witness for the amended C7: a successful first attempt appends part 1. -/
theorem UploadPart_spec_witness :
    (MultipartUploadStream.UploadPart (fun _ => true) newMultipartUploadStream "x").1.parts
      = [(1, "x")] := by
  have h := ((UploadPart_spec (fun _ => true) newMultipartUploadStream "x").2.1
    (by decide)).1 rfl
  exact h.1

theorem uploadPart_parts_noop (f : Nat → Bool) (m : MultipartUploadStream) (data : String)
    (h : data = "" ∨ (runAttempts f 1 5).1 = false) :
    (MultipartUploadStream.UploadPart f m data).1 =
      (if data = "" then m else { m with aborted := true }) := by
  by_cases hd : data = ""
  · rw [MultipartUploadStream.UploadPart, if_pos hd, if_pos hd]
  · have hr : (runAttempts f 1 5).1 = false := h.resolve_left hd
    have hstep : MultipartUploadStream.UploadPart f m data = (if (runAttempts f 1 5).1 then ({ m with parts := m.parts ++ [(m.partNumber, data)], partNumber := m.partNumber + 1 }, none, (runAttempts f 1 5).2) else ({ m with aborted := true }, some s!"failed to upload part {m.partNumber}", (runAttempts f 1 5).2)) := by
      rw [MultipartUploadStream.UploadPart, if_neg hd]
    rw [hstep, if_neg (by rw [hr]; simp), if_neg hd]

theorem uploadPart_parts_push (f : Nat → Bool) (m : MultipartUploadStream) (data : String)
    (hd : data ≠ "") (hr : (runAttempts f 1 5).1 = true) :
    (MultipartUploadStream.UploadPart f m data).1.parts
      = m.parts ++ [(m.partNumber, data)] := by
  have hstep : MultipartUploadStream.UploadPart f m data = (if (runAttempts f 1 5).1 then ({ m with parts := m.parts ++ [(m.partNumber, data)], partNumber := m.partNumber + 1 }, none, (runAttempts f 1 5).2) else ({ m with aborted := true }, some s!"failed to upload part {m.partNumber}", (runAttempts f 1 5).2)) := by
    rw [MultipartUploadStream.UploadPart, if_neg hd]
  rw [hstep, if_pos hr]

/-- `runSession` only ever appends parts. -/
theorem runSession_parts_mono :
    ∀ (calls : List (String × (Nat → Bool))) (m : MultipartUploadStream),
      ∃ l, (runSession calls m).parts = m.parts ++ l
  | [], m => ⟨[], (List.append_nil _).symm⟩
  | (data, f) :: rest, m => by
    rw [runSession]
    by_cases hno : data = "" ∨ (runAttempts f 1 5).1 = false
    · obtain ⟨l, hl⟩ := runSession_parts_mono rest (MultipartUploadStream.UploadPart f m data).1
      refine ⟨l, ?_⟩
      rw [hl, uploadPart_parts_noop f m data hno]
      by_cases hd : data = ""
      · rw [if_pos hd]
      · rw [if_neg hd]
    · push_neg at hno
      obtain ⟨hd, hr⟩ := hno
      have hr' : (runAttempts f 1 5).1 = true := by
        cases hx : (runAttempts f 1 5).1
        · exact absurd hx hr
        · rfl
      obtain ⟨l, hl⟩ := runSession_parts_mono rest (MultipartUploadStream.UploadPart f m data).1
      refine ⟨[(m.partNumber, data)] ++ l, ?_⟩
      rw [hl, uploadPart_parts_push f m data hd hr', List.append_assoc]

/-- The accumulated parts stay exactly as on entry iff every call of the
session was a no-op. -/
theorem runSession_parts_eq_iff :
    ∀ (calls : List (String × (Nat → Bool))) (m : MultipartUploadStream),
      ((runSession calls m).parts = m.parts ↔ ∀ c ∈ calls, callNoOp c)
  | [], m => by
    rw [runSession]
    simp
  | (data, f) :: rest, m => by
    rw [runSession]
    by_cases hno : data = "" ∨ (runAttempts f 1 5).1 = false
    · have hparts : (MultipartUploadStream.UploadPart f m data).1.parts = m.parts := by
        rw [uploadPart_parts_noop f m data hno]
        by_cases hd : data = ""
        · rw [if_pos hd]
        · rw [if_neg hd]
      have ih := runSession_parts_eq_iff rest (MultipartUploadStream.UploadPart f m data).1
      rw [hparts] at ih
      rw [ih]
      constructor
      · intro h c hc
        rcases List.mem_cons.mp hc with rfl | hc'
        · exact hno
        · exact h c hc'
      · intro h c hc
        exact h c (List.mem_cons_of_mem _ hc)
    · push_neg at hno
      obtain ⟨hd, hr⟩ := hno
      have hr' : (runAttempts f 1 5).1 = true := by
        cases hx : (runAttempts f 1 5).1
        · exact absurd hx hr
        · rfl
      constructor
      · intro h
        obtain ⟨l, hl⟩ := runSession_parts_mono rest (MultipartUploadStream.UploadPart f m data).1
        rw [hl, uploadPart_parts_push f m data hd hr'] at h
        have := congrArg List.length h
        rw [List.length_append, List.length_append] at this
        rw [List.length_singleton] at this
        exact absurd this (by omega)
      · intro h
        have := h (data, f) (List.mem_cons_self _ _)
        rcases this with h1 | h2
        · exact absurd h1 hd
        · rw [h2] at hr'
          cases hr'

/-- The numbering invariant survives a whole session. -/
theorem runSession_preserves_numbered :
    ∀ (calls : List (String × (Nat → Bool))) (m : MultipartUploadStream),
      partsNumbered m → partsNumbered (runSession calls m)
  | [], _, h => h
  | (data, f) :: rest, m, h => by
    rw [runSession]
    exact runSession_preserves_numbered rest _ (uploadPart_preserves_numbered f m data h)

/-- C8: `Complete` fails with the "no parts uploaded" error exactly when zero
non-empty parts were uploaded during the session's lifetime (every call of
the session either carried empty data or exhausted all five attempts), in
which case the session is aborted and nothing is finalized; otherwise, with
the remote completion succeeding, it finalizes the object from the
accumulated part list, whose part numbers are in strictly ascending order. -/
theorem Complete_spec (calls : List (String × (Nat → Bool))) (remoteOk : Bool) :
    ((MultipartUploadStream.Complete remoteOk (runSession calls newMultipartUploadStream)).2.1
        = some "no parts uploaded"
      ↔ (runSession calls newMultipartUploadStream).parts = []) ∧
    ((runSession calls newMultipartUploadStream).parts = []
      ↔ ∀ c ∈ calls, c.1 = "" ∨ ∀ a, 1 ≤ a → a ≤ 5 → c.2 a = false) ∧
    ((runSession calls newMultipartUploadStream).parts = [] →
      (MultipartUploadStream.Complete remoteOk
          (runSession calls newMultipartUploadStream)).1.aborted = true ∧
      (MultipartUploadStream.Complete remoteOk
          (runSession calls newMultipartUploadStream)).2.2 = none) ∧
    ((runSession calls newMultipartUploadStream).parts ≠ [] → remoteOk = true →
      (MultipartUploadStream.Complete remoteOk
          (runSession calls newMultipartUploadStream)).2.1 = none ∧
      (MultipartUploadStream.Complete remoteOk
          (runSession calls newMultipartUploadStream)).2.2
        = some (runSession calls newMultipartUploadStream).parts ∧
      List.Pairwise (fun p q : Nat × String => p.1 < q.1)
        (runSession calls newMultipartUploadStream).parts) := by
  have hiff2 : (runSession calls newMultipartUploadStream).parts = []
      ↔ ∀ c ∈ calls, c.1 = "" ∨ ∀ a, 1 ≤ a → a ≤ 5 → c.2 a = false := by
    have h := runSession_parts_eq_iff calls newMultipartUploadStream
    rw [show newMultipartUploadStream.parts = [] from rfl] at h
    rw [h]
    constructor
    · intro hall c hc
      rcases hall c hc with h1 | h2
      · exact Or.inl h1
      · refine Or.inr ?_
        intro a ha1 ha5
        exact ((runAttempts_spec c.2 5 1 (by omega)).1.mp h2) a ha1 (by omega)
    · intro hall c hc
      rcases hall c hc with h1 | h2
      · exact Or.inl h1
      · refine Or.inr ?_
        refine (runAttempts_spec c.2 5 1 (by omega)).1.mpr ?_
        intro x hx1 hx2
        exact h2 x hx1 (by omega)
  by_cases hp : (runSession calls newMultipartUploadStream).parts = []
  · have hempty : (runSession calls newMultipartUploadStream).parts.isEmpty = true := by
      rw [hp]; rfl
    have hcomp : MultipartUploadStream.Complete remoteOk
        (runSession calls newMultipartUploadStream)
        = ({ runSession calls newMultipartUploadStream with aborted := true },
            some "no parts uploaded", none) := by
      rw [MultipartUploadStream.Complete, if_pos hempty]
    rw [hcomp]
    exact ⟨by simp [hp], hiff2, fun _ => ⟨rfl, rfl⟩, fun hne _ => absurd hp hne⟩
  · have hempty : ¬ (runSession calls newMultipartUploadStream).parts.isEmpty = true := by
      cases hx : (runSession calls newMultipartUploadStream).parts
      · exact absurd hx hp
      · simp [hx]
    by_cases hok : remoteOk = true
    · have hcomp : MultipartUploadStream.Complete remoteOk
          (runSession calls newMultipartUploadStream)
          = (runSession calls newMultipartUploadStream, none,
              some (runSession calls newMultipartUploadStream).parts) := by
        rw [MultipartUploadStream.Complete, if_neg hempty, if_pos hok]
      rw [hcomp]
      refine ⟨by simp [hp], hiff2, fun hc => absurd hc hp, fun _ _ => ⟨rfl, rfl, ?_⟩⟩
      have hnum := runSession_preserves_numbered calls newMultipartUploadStream ⟨rfl, rfl⟩
      obtain ⟨hmap, -⟩ := hnum
      have hlt : List.Pairwise (· < ·)
          ((runSession calls newMultipartUploadStream).parts.map Prod.fst) := by
        rw [hmap]
        exact List.pairwise_lt_range' 1 _
      exact (List.pairwise_map).mp hlt
    · have hok' : remoteOk = false := by
        cases remoteOk
        · rfl
        · exact absurd rfl hok
      have hcomp : MultipartUploadStream.Complete remoteOk
          (runSession calls newMultipartUploadStream)
          = ({ runSession calls newMultipartUploadStream with aborted := true },
              some "failed to complete multipart upload", none) := by
        rw [MultipartUploadStream.Complete, if_neg hempty, hok', if_neg (by simp)]
      rw [hcomp]
      refine ⟨?_, hiff2, fun hc => absurd hc hp, fun _ hok2 => absurd hok2 hok⟩
      constructor
      · intro h
        have := Option.some.inj h
        exact absurd (congrArg String.data this) (by decide)
      · intro h
        exact absurd h hp

/-- Witness for C8: one successful non-empty call, completion succeeds. -/
theorem Complete_spec_witness :
    (MultipartUploadStream.Complete true
        (runSession [("x", fun _ => true)] newMultipartUploadStream)).2.2
      = some (runSession [("x", fun _ => true)] newMultipartUploadStream).parts := by
  have h := (Complete_spec [("x", fun _ => true)] true).2.2.2
  exact (h (by decide) rfl).2.1

theorem processSegments_foldl (perSegment : Segment → Except String (List CSVFile)) :
    ∀ (segments : List Segment) (acc : List CSVFile),
      segments.foldl (fun acc s =>
          match perSegment s with
          | .ok files => acc ++ files
          | .error _ => acc) acc
        = acc ++ (segments.filterMap (fun s => (perSegment s).toOption)).flatten
  | [], acc => by simp
  | s :: rest, acc => by
    rw [List.foldl_cons, List.filterMap_cons]
    cases hs : perSegment s with
    | ok files =>
      rw [show (Except.ok files : Except String (List CSVFile)).toOption = some files from rfl]
      rw [processSegments_foldl perSegment rest (acc ++ files), List.flatten_cons,
        List.append_assoc]
    | error e =>
      rw [show (Except.error e : Except String (List CSVFile)).toOption = none from rfl]
      exact processSegments_foldl perSegment rest acc

/-- C10: whenever the exporter and the S3 uploader are constructed
successfully, `ProcessSegments` returns a nil error regardless of how many
individual segments fail: the result is exactly the concatenation of the
files of the segments whose export succeeded, failed segments are silently
omitted, and no per-segment failure detail is returned; the returned error is
non-nil exactly when the exporter or the uploader could not be created. -/
theorem ProcessSegments_isolates_failures (e1 e2 : Option String)
    (perSegment : Segment → Except String (List CSVFile)) (segments : List Segment) :
    (e1 = none → e2 = none →
      ProcessSegments e1 e2 perSegment segments =
        .ok ((segments.filterMap (fun s => (perSegment s).toOption)).flatten)) ∧
    ((e1 ≠ none ∨ e2 ≠ none) ↔ ∃ msg, ProcessSegments e1 e2 perSegment segments = .error msg) := by
  constructor
  · intro h1 h2
    subst h1
    subst h2
    rw [ProcessSegments]
    rw [processSegments_foldl perSegment segments [], List.nil_append]
  · constructor
    · intro h
      cases he1 : e1 with
      | some msg => exact ⟨s!"failed to create exporter: {msg}", by rw [ProcessSegments]⟩
      | none =>
        cases he2 : e2 with
        | some msg =>
          refine ⟨s!"failed to create S3 uploader: {msg}", ?_⟩
          rw [ProcessSegments]
        | none =>
          subst he1
          subst he2
          rcases h with h | h
          · exact absurd rfl h
          · exact absurd rfl h
    · intro ⟨msg, hmsg⟩
      cases he1 : e1 with
      | some m => exact Or.inl (by simp [he1])
      | none =>
        cases he2 : e2 with
        | some m => exact Or.inr (by simp [he2])
        | none =>
          subst he1
          subst he2
          rw [ProcessSegments] at hmsg
          cases hmsg

/-- Witness for C10: with both constructors succeeding and the only segment
failing, the scheduler still returns `.ok` with that segment's output
omitted. -/
theorem ProcessSegments_isolates_failures_witness :
    ProcessSegments none none (fun _ => .error "segment failed")
        [{ Index := 0, StartHex := "00", EndHex := "100" }] = .ok [] := by
  have h := (ProcessSegments_isolates_failures none none (fun _ => .error "segment failed")
    [{ Index := 0, StartHex := "00", EndHex := "100" }]).1 rfl rfl
  exact h.trans rfl

end FisMigration
